import Mathlib

/-!
TaskVault: storage engine, hash engine and cache manager.

A shallow embedding of `internal/storage/store.go`, `internal/hash/engine.go`
and `internal/cache/manager.go`.

Modelling conventions.

* The SQLite table `cache_entries` is a list of rows in rowid order. The
  `hash` column is the primary key; `INSERT OR REPLACE` drops the row of the
  same hash and appends the new one, `DELETE ... WHERE hash = ?` filters.
* The blob directory is a list of (path, content) pairs, one per regular file.
* Every call reads the system clock once; `now` is that instant in nanoseconds
  since the Unix epoch. `time.Now()` is the instant in the local zone of the
  process. go-sqlite3 binds a `time.Time` as TEXT, formatted in the time's own
  zone with the layout `2006-01-02 15:04:05.999999999-07:00`; SQLite
  `datetime('now')` is the text `YYYY-MM-DD HH:MM:SS` in UTC. The timestamp
  columns (declared `TIMESTAMP`) hold these texts as they are, and SQLite
  compares and orders them as text, byte by byte.
* `ORDER BY accessed_at ASC` is a stable sort of the rowid order by that text.
* `s.db` is a connection pool. While the cursor of `evictIfNeeded` is open it
  keeps one connection and its read lock on the database file; a `DELETE`
  issued through `s.db` meanwhile runs on another connection, cannot take the
  write lock, and fails with `database is locked` once the busy timeout is
  over. Reads on another connection succeed.
* Library calls that may fail for reasons outside the program (disk, database)
  consult a fault oracle `Faults`; a statement that fails changes nothing.
* `blake3`, `sha256`, `encoding/json`, the local time zone and the parsing of
  timestamp columns on a scan are library functions, taken as the parameter
  `Lib`.
* The audit logger only appends to a log file and never influences a result;
  it is left out.
* A directory tree is a `Node`. `filepath.Walk` visits a node, then, for a
  directory, its entries in sorted name order (the lexical order its
  documentation states); the order in which the file system lists the names
  and the calls that fail are the oracle `WalkEnv`. A streaming hasher returns
  the library digest of all bytes written to it.
-/

set_option linter.unusedVariables false

namespace TaskVault

/-- Raw bytes; each byte is kept as a natural number. -/
abbrev Bytes := List Nat

/-- Dynamic Go values as they occur in caller supplied metadata. The last
constructor stands for values `json.Marshal` rejects (channels, functions,
NaN). -/
inductive Value where
  | null
  | str (s : String)
  | num (n : Int)
  | bool (b : Bool)
  | unencodable
  deriving DecidableEq, Repr

/-- The `metadata` argument of `SaveResult`: a possibly nil map. -/
abbrev UserData := Option (List (String × Value))

/-- Values of the metadata map the manager builds for an entry. -/
inductive MetaValue where
  | str (s : String)
  | int (n : Int)
  | user (u : UserData)
  deriving DecidableEq, Repr

/-- Go `map[string]interface{}` as stored in `Entry.Metadata`. -/
abbrev MetaMap := List (String × MetaValue)

/-- A Go `time.Time`: the instant in nanoseconds since the Unix epoch and the
offset of its location east of UTC, in seconds, at that instant. -/
structure GoTime where
  unixNano : Int
  offset : Int
  deriving DecidableEq, Repr

/-- Library functions the program calls: the two digests (already hex
encoded), the JSON codec for metadata maps, the offset of `time.Local` east of
UTC (in seconds) at an instant, and the conversion go-sqlite3 applies to the
text of a timestamp column when it is scanned into a `time.Time`. -/
structure Lib where
  blake3Sum256 : Bytes → String
  sha256Sum256 : Bytes → String
  jsonMarshal : MetaMap → Option String
  jsonUnmarshal : String → Option MetaMap
  localOffset : Int → Int
  scanTime : String → GoTime

/-- Fault oracle: which fallible library calls fail during one operation.
Fields indexed by a string are asked per digest (or per path). -/
structure Faults where
  /-- Failure of `os.WriteFile` in `Set`. -/
  writeFile : Bool
  /-- Failure of `os.ReadFile` in `Get` on a file that exists. -/
  readFile : Bool
  /-- Failure of `os.Remove` on the given path (the file stays). -/
  removeFile : String → Bool
  /-- Failure of the `INSERT OR REPLACE` in `Set`. -/
  insertRow : Bool
  /-- Failure of the `SELECT` in `Get` other than `sql.ErrNoRows`. -/
  selectEntry : Bool
  /-- Failure of the `UPDATE ... accessed_at` in `Get` (result ignored). -/
  updateAccessed : Bool
  /-- Failure of the `SELECT blob_path` in `Delete` other than `ErrNoRows`. -/
  selectBlobPath : String → Bool
  /-- Failure of the `DELETE` statement in `Delete`. -/
  deleteRow : String → Bool
  /-- Failure of the `SUM(size)` query in `evictIfNeeded`. -/
  sumSize : Bool
  /-- Failure of the ordered `SELECT hash, size` in `evictIfNeeded`. -/
  queryRows : Bool
  /-- The cursor stops with an error before the row of this digest. -/
  rowsNext : String → Bool
  /-- Failure of `rows.Scan` on the row of this digest. -/
  scanRow : String → Bool
  /-- Failure of the aggregate query in `Stats`. -/
  statsQuery : Bool

/-- The oracle under which every library call succeeds. -/
def noFaults : Faults :=
  { writeFile := false, readFile := false, removeFile := fun _ => false,
    insertRow := false, selectEntry := false, updateAccessed := false,
    selectBlobPath := fun _ => false, deleteRow := fun _ => false,
    sumSize := false, queryRows := false, rowsNext := fun _ => false,
    scanRow := fun _ => false, statsQuery := false }

/-- Errors of the storage engine, one per `fmt.Errorf` site of `store.go`. -/
inductive StorageError where
  | cannotWriteBlob
  | cannotMarshalMetadata
  | cannotInsertEntry
  | databaseError
  | cannotUnmarshalMetadata
  | cannotDeleteEntry
  | cannotCalculateSize
  | cannotQueryEntries
  | cannotGetStats
  deriving DecidableEq, Repr

/-- Go struct `storage.Entry`. -/
structure Entry where
  Hash : String
  Data : Bytes
  Metadata : MetaMap
  CreatedAt : GoTime
  AccessedAt : GoTime
  ExpiresAt : Option GoTime
  Size : Int
  deriving DecidableEq, Repr

/-- One row of table `cache_entries`. The timestamp columns hold text. -/
structure Row where
  hash : String
  metadata : String
  created_at : String
  accessed_at : String
  expires_at : Option String
  size : Int
  blob_path : String
  deriving DecidableEq, Repr

/-- Go struct `storage.Store` together with what its handles point to: the
rows of the database and the regular files of the blob directory. -/
structure Store where
  rows : List Row
  files : List (String × Bytes)
  blobDir : String
  cacheSize : Int
  deriving DecidableEq, Repr

/-- Two's complement wrap of an integer to the range of Go `int64`. -/
def wrapInt64 (x : Int) : Int := (x + 2 ^ 63) % 2 ^ 64 - 2 ^ 63

/-- `filepath.Join(dir, name)` for a clean `dir` and a plain file name. -/
def pathJoin (dir name : String) : String := dir ++ "/" ++ name

/-- `NewStore` on a fresh cache directory: empty table, empty blob directory,
capacity `maxSizeGB * 1024 * 1024 * 1024` in `int64` arithmetic. -/
def NewStore (cacheDir : String) (maxSizeGB : Int) : Store :=
  { rows := [], files := [], blobDir := pathJoin cacheDir "blobs",
    cacheSize := wrapInt64 (maxSizeGB * 1024 * 1024 * 1024) }

/-- Content of the file at `path`, if there is one. -/
def fsRead (files : List (String × Bytes)) (path : String) : Option Bytes :=
  (files.find? (fun f => f.1 == path)).map (fun f => f.2)

/-- File system after a successful `os.WriteFile(path, data)`. -/
def fsWrite (files : List (String × Bytes)) (path : String) (data : Bytes) :
    List (String × Bytes) :=
  files.filter (fun f => f.1 != path) ++ [(path, data)]

/-- File system after a successful `os.Remove(path)`. -/
def fsRemove (files : List (String × Bytes)) (path : String) : List (String × Bytes) :=
  files.filter (fun f => f.1 != path)

/-- Call `os.Remove(path)` with its error ignored: on failure the file stays. -/
def osRemove (F : Faults) (files : List (String × Bytes)) (path : String) :
    List (String × Bytes) :=
  if F.removeFile path then files else fsRemove files path

/-- Go constant `time.Second`, in nanoseconds. -/
def Second : Int := 1000000000

/-- `time.Now()` at the instant `now`: that instant in the local zone. -/
def timeNow (L : Lib) (now : Int) : GoTime :=
  { unixNano := now, offset := L.localOffset now }

/-- Decimal digits of a natural number, padded with zeros on the left to at
least `width` digits. -/
def padLeft (width : Nat) (n : Nat) : String :=
  String.mk (List.replicate (width - (toString n).length) '0') ++ toString n

/-- Civil date (year, month, day) of a day number counted from 1970-01-01 in
the proleptic Gregorian calendar. -/
def civilFromDays (days : Int) : Int × Int × Int :=
  let z := days + 719468
  let era := z / 146097
  let doe := z - era * 146097
  let yoe := (doe - doe / 1460 + doe / 36524 - doe / 146096) / 365
  let doy := doe - (365 * yoe + yoe / 4 - yoe / 100)
  let mp := (5 * doy + 2) / 153
  let d := doy - (153 * mp + 2) / 5 + 1
  let m := if mp < 10 then mp + 3 else mp - 9
  let y := yoe + era * 400 + (if m ≤ 2 then 1 else 0)
  (y, m, d)

/-- Text `YYYY-MM-DD HH:MM:SS` of a count of seconds since the Unix epoch read
as a wall clock (years 0000 to 9999). -/
def wallClockText (secs : Int) : String :=
  let days := secs / 86400
  let sod := secs % 86400
  let ymd := civilFromDays days
  padLeft 4 ymd.1.toNat ++ "-" ++ padLeft 2 ymd.2.1.toNat ++ "-" ++ padLeft 2 ymd.2.2.toNat ++
    " " ++ padLeft 2 (sod / 3600).toNat ++ ":" ++ padLeft 2 (sod % 3600 / 60).toNat ++ ":" ++
    padLeft 2 (sod % 60).toNat

/-- Fraction of a second as the layout `.999999999` prints it: nothing for
zero, else a dot and the nanoseconds without trailing zeros. -/
def fractionText (nanos : Nat) : String :=
  if nanos = 0 then ""
  else "." ++ String.mk ((padLeft 9 nanos).data.reverse.dropWhile (fun c => c == '0')).reverse

/-- Zone offset as the layout `-07:00` prints it. -/
def offsetText (offset : Int) : String :=
  let zone := Int.tdiv offset 60
  (if zone < 0 then "-" else "+") ++ padLeft 2 (zone.natAbs / 60) ++ ":" ++
    padLeft 2 (zone.natAbs % 60)

/-- Text go-sqlite3 binds for a `time.Time` argument: the time formatted with
the layout `2006-01-02 15:04:05.999999999-07:00` in its own location. -/
def goTimestampText (t : GoTime) : String :=
  wallClockText (t.unixNano / Second + t.offset) ++ fractionText (t.unixNano % Second).toNat ++
    offsetText t.offset

/-- Value of SQLite `datetime('now')` at an instant: UTC, whole seconds. -/
def sqliteDatetime (unixNano : Int) : String :=
  wallClockText (unixNano / Second)

/-- SQLite comparison `a < b` of two TEXT values under the BINARY collation
(for the ASCII texts of timestamps, the order of the character lists). -/
def textLT (a b : String) : Bool := decide (a.data < b.data)

/-- Query `SELECT COALESCE(SUM(size), 0) FROM cache_entries`. -/
def totalSize (rows : List Row) : Int := (rows.map (fun r => r.size)).sum

/-- Query `SELECT ... FROM cache_entries ORDER BY accessed_at ASC`. -/
def orderByAccessed (rows : List Row) : List Row :=
  rows.insertionSort (fun a b => a.accessed_at.data ≤ b.accessed_at.data)

/-- Method `Store.Delete`. -/
def Store.Delete (F : Faults) (s : Store) (hash : String) : Store × Option StorageError :=
  if F.selectBlobPath hash then (s, some .databaseError)
  else
    match s.rows.find? (fun r => r.hash == hash) with
    | none => (s, none)
    | some r =>
      if F.deleteRow hash then (s, some .cannotDeleteEntry)
      else
        ({ s with rows := s.rows.filter (fun x => x.hash != hash),
                  files := osRemove F s.files r.blob_path }, none)

/-- Faults met by a call made through `s.db` while the cursor of
`evictIfNeeded` is open. The cursor keeps its pooled connection and the read
lock of that connection, so the `DELETE` of `Delete` runs on another
connection, cannot take the write lock and fails with `database is locked`;
the `SELECT` of `Delete` only reads and is not affected. -/
def underOpenCursor (F : Faults) : Faults := { F with deleteRow := fun _ => true }

/-- The loop of `evictIfNeeded` over the cursor `rows`: while rows remain and
the running total is above the target, call `Delete` on the next row; a row
whose scan or delete fails is skipped without touching the running total. The
cursor is open during every call of `Delete`. -/
def evictLoop (F : Faults) : List Row → Store → Int → Int → Store
  | [], s, _, _ => s
  | r :: rest, s, total, target =>
    if F.rowsNext r.hash then s
    else if total > target then
      if F.scanRow r.hash then evictLoop F rest s total target
      else
        match s.Delete (underOpenCursor F) r.hash with
        | (_, some _) => evictLoop F rest s total target
        | (s1, none) => evictLoop F rest s1 (total - r.size) target
    else s

/-- Method `Store.evictIfNeeded`. The target is `cacheSize / 2` with Go's
truncating division. -/
def Store.evictIfNeeded (F : Faults) (s : Store) : Store × Option StorageError :=
  if F.sumSize then (s, some .cannotCalculateSize)
  else if totalSize s.rows ≤ s.cacheSize then (s, none)
  else if F.queryRows then (s, some .cannotQueryEntries)
  else
    (evictLoop F (orderByAccessed s.rows) s (totalSize s.rows) (Int.tdiv s.cacheSize 2), none)

/-- Method `Store.Set`. -/
def Store.Set (L : Lib) (F : Faults) (s : Store) (entry : Entry) :
    Store × Option StorageError :=
  let blobPath := pathJoin s.blobDir entry.Hash
  if F.writeFile then (s, some .cannotWriteBlob)
  else
    let s1 : Store := { s with files := fsWrite s.files blobPath entry.Data }
    match L.jsonMarshal entry.Metadata with
    | none => ({ s1 with files := osRemove F s1.files blobPath }, some .cannotMarshalMetadata)
    | some metadataJSON =>
      if F.insertRow then
        ({ s1 with files := osRemove F s1.files blobPath }, some .cannotInsertEntry)
      else
        let row : Row :=
          { hash := entry.Hash, metadata := metadataJSON,
            created_at := goTimestampText entry.CreatedAt,
            accessed_at := goTimestampText entry.AccessedAt,
            expires_at := entry.ExpiresAt.map goTimestampText,
            size := entry.Size, blob_path := blobPath }
        let s2 : Store :=
          { s1 with rows := s1.rows.filter (fun x => x.hash != entry.Hash) ++ [row] }
        s2.evictIfNeeded F

/-- The row filter of the `SELECT` in `Get`:
`expires_at IS NULL OR expires_at > datetime('now')`, a comparison of the
stored text with the text of the current UTC time. -/
def Row.live (now : Int) (r : Row) : Bool :=
  match r.expires_at with
  | none => true
  | some t => textLT (sqliteDatetime now) t

/-- Method `Store.Get`. The result is `(entry, err)`: `.ok none` is
`(nil, nil)`, a miss. -/
def Store.Get (L : Lib) (F : Faults) (now : Int) (s : Store) (hash : String) :
    Store × Except StorageError (Option Entry) :=
  if F.selectEntry then (s, .error .databaseError)
  else
    match s.rows.find? (fun r => r.hash == hash && r.live now) with
    | none => (s, .ok none)
    | some r =>
      match (if F.readFile then none else fsRead s.files r.blob_path) with
      | none => ((s.Delete F hash).1, .ok none)
      | some data =>
        match L.jsonUnmarshal r.metadata with
        | none => (s, .error .cannotUnmarshalMetadata)
        | some metadata =>
          let rows1 :=
            if F.updateAccessed then s.rows
            else s.rows.map (fun x =>
              if x.hash == hash then { x with accessed_at := sqliteDatetime now } else x)
          ({ s with rows := rows1 },
            .ok (some { Hash := hash, Data := data, Metadata := metadata,
                        CreatedAt := L.scanTime r.created_at, AccessedAt := timeNow L now,
                        ExpiresAt := r.expires_at.map L.scanTime, Size := r.size }))

/-- The integer and timestamp fields of the map `Store.Stats` returns (the
floating point `usage_percent` is not modelled). -/
structure Stats where
  entries : Int
  total_size : Int
  cache_limit : Int
  oldest_access : Option String
  deriving DecidableEq, Repr

/-- Minimum of the `accessed_at` column, `NULL` on an empty table. -/
def minAccessed : List Row → Option String
  | [] => none
  | r :: rest =>
    match minAccessed rest with
    | none => some r.accessed_at
    | some m => some (if r.accessed_at.data ≤ m.data then r.accessed_at else m)

/-- Method `Store.Stats`. -/
def Store.Stats (F : Faults) (s : Store) : Except StorageError Stats :=
  if F.statsQuery then .error .cannotGetStats
  else
    .ok { entries := s.rows.length, total_size := totalSize s.rows,
          cache_limit := s.cacheSize, oldest_access := minAccessed s.rows }

/-! ## Hash engine -/

/-- Go struct `hash.Engine`; the algorithm is the string behind `HashAlgorithm`. -/
structure Engine where
  algorithm : String
  deriving DecidableEq, Repr

/-- Function `NewEngine`: the empty name selects blake3. -/
def NewEngine (algo : String) : Engine :=
  if algo = "" then { algorithm := "blake3" } else { algorithm := algo }

/-- Method `Engine.HashData`. -/
def Engine.HashData (L : Lib) (e : Engine) (data : Bytes) : Except String String :=
  if e.algorithm = "blake3" then .ok (L.blake3Sum256 data)
  else if e.algorithm = "sha256" then .ok (L.sha256Sum256 data)
  else .error ("unsupported algorithm: " ++ e.algorithm)

/-! ## Cache manager -/

/-- Go struct `cache.EvictionPolicy`; `TTL` is a `time.Duration`, a count of
nanoseconds. -/
structure EvictionPolicy where
  Name : String
  TTL : Int
  MaxSize : Int
  Strategy : String
  deriving DecidableEq, Repr

/-- Errors the manager returns. -/
inductive CacheError where
  | policyNameRequired
  | hashError (msg : String)
  | saveError (e : StorageError)
  | getError (e : StorageError)
  deriving DecidableEq, Repr

/-- Lookup `m[key]` in a Go map kept as an association list. -/
def mapGet {β : Type} (m : List (String × β)) (key : String) : Option β :=
  (m.find? (fun kv => kv.1 == key)).map (fun kv => kv.2)

/-- Assignment `m[key] = v` in a Go map kept as an association list. -/
def mapPut {β : Type} (m : List (String × β)) (key : String) (v : β) : List (String × β) :=
  (key, v) :: m.filter (fun kv => kv.1 != key)

/-- Go struct `cache.Manager` (without the audit logger and the lock). -/
structure Manager where
  store : Store
  hasher : Engine
  policies : List (String × EvictionPolicy)
  maxSizeGB : Int
  deriving DecidableEq, Repr

/-- Function `NewManager` on a fresh cache directory. -/
def NewManager (cacheDir : String) (maxSizeGB : Int) (hashAlgo : String) : Manager :=
  { store := NewStore cacheDir maxSizeGB, hasher := NewEngine hashAlgo,
    policies := [], maxSizeGB := maxSizeGB }

/-- Method `Manager.RegisterPolicy`. -/
def Manager.RegisterPolicy (m : Manager) (policy : EvictionPolicy) :
    Manager × Option CacheError :=
  if policy.Name = "" then (m, some .policyNameRequired)
  else ({ m with policies := mapPut m.policies policy.Name policy }, none)

/-- The `ExpiresAt` the manager gives a new entry: `now.Add(policy.TTL)`, the
instant `now + TTL` in the location of `now` (the local zone), when the task
has a policy with a positive TTL, nothing otherwise. -/
def policyExpiry (L : Lib) (policies : List (String × EvictionPolicy)) (taskName : String)
    (now : Int) : Option GoTime :=
  match mapGet policies taskName with
  | some policy => if policy.TTL > 0 then some (timeNow L (now + policy.TTL)) else none
  | none => none

/-- The entry `SaveResult` builds before handing it to the store. -/
def buildEntry (L : Lib) (m : Manager) (now : Int) (taskName inputHash : String)
    (output : Bytes) (metadata : UserData) : Entry :=
  { Hash := inputHash, Data := output, CreatedAt := timeNow L now, AccessedAt := timeNow L now,
    Size := (output.length : Int),
    Metadata := [("task", .str taskName), ("input_hash", .str inputHash),
                 ("output_size", .int (output.length : Int)), ("user_data", .user metadata)],
    ExpiresAt := policyExpiry L m.policies taskName now }

/-- Method `Manager.SaveResult`; `.ok h` is `(h, nil)`. -/
def Manager.SaveResult (L : Lib) (F : Faults) (now : Int) (m : Manager) (taskName : String)
    (inputData output : Bytes) (metadata : UserData) : Manager × Except CacheError String :=
  match m.hasher.HashData L inputData with
  | .error e => (m, .error (.hashError e))
  | .ok inputHash =>
    match m.store.Set L F (buildEntry L m now taskName inputHash output metadata) with
    | (st, some err) => ({ m with store := st }, .error (.saveError err))
    | (st, none) => ({ m with store := st }, .ok inputHash)

/-- Method `Manager.GetResult`. The result `.ok (some (data, metadata))` is
`(data, metadata, true, nil)` and `.ok none` is `(nil, nil, false, nil)`. -/
def Manager.GetResult (L : Lib) (F : Faults) (now : Int) (m : Manager) (taskName : String)
    (inputData : Bytes) : Manager × Except CacheError (Option (Bytes × MetaMap)) :=
  match m.hasher.HashData L inputData with
  | .error e => (m, .error (.hashError e))
  | .ok inputHash =>
    match m.store.Get L F now inputHash with
    | (st, .error err) => ({ m with store := st }, .error (.getError err))
    | (st, .ok none) => ({ m with store := st }, .ok none)
    | (st, .ok (some entry)) => ({ m with store := st }, .ok (some (entry.Data, entry.Metadata)))

/-- Method `Manager.GetStats` without the added `max_size_gb` key, which is
the manager's own field. -/
def Manager.GetStats (F : Faults) (m : Manager) : Except StorageError Stats :=
  m.store.Stats F

/-- One call on a manager, with the clock reading (nanoseconds since the Unix
epoch) and the faults it meets. -/
inductive Op where
  | save (now : Int) (F : Faults) (taskName : String) (inputData output : Bytes)
      (metadata : UserData)
  | get (now : Int) (F : Faults) (taskName : String) (inputData : Bytes)
  | register (policy : EvictionPolicy)

/-- State of the manager after one call. -/
def Manager.step (L : Lib) (m : Manager) : Op → Manager
  | .save now F t i o md => (m.SaveResult L F now t i o md).1
  | .get now F t i => (m.GetResult L F now t i).1
  | .register p => (m.RegisterPolicy p).1

/-- State of the manager after a sequence of calls. -/
def Manager.run (L : Lib) (m : Manager) (ops : List Op) : Manager :=
  ops.foldl (Manager.step L) m

/-! ## Test doubles for the library

A small concrete `Lib`, used to evaluate the program on concrete inputs. -/

/-- Decimal digits of a byte string, as a stand-in digest. -/
def toyDigest (tag : String) (data : Bytes) : String :=
  tag ++ String.join (data.map (fun b => "-" ++ toString b))

/-- Whether `json.Marshal` accepts the metadata map. -/
def encodable (md : MetaMap) : Bool :=
  md.all (fun kv =>
    match kv.2 with
    | .user (some u) => u.all (fun e => e.2 != Value.unencodable)
    | _ => true)

/-- Library double: tagged digests, a codec that stores a fixed document for
every encodable map, a process running in UTC, and a scan that returns the
zero instant for every text. -/
def toyLib : Lib :=
  { blake3Sum256 := toyDigest "b3", sha256Sum256 := toyDigest "s2",
    jsonMarshal := fun md => if encodable md then some "json" else none,
    jsonUnmarshal := fun _ => some [],
    localOffset := fun _ => 0,
    scanTime := fun _ => { unixNano := 0, offset := 0 } }

/-- The same library in a process whose local zone is five hours west of UTC
(offset -05:00, for instance `America/New_York` in winter). -/
def westLib : Lib := { toyLib with localOffset := fun _ => -18000 }

/-! ## Predicates on states and oracles -/

/-- The primary key constraint of `cache_entries`: no two rows share a hash. -/
def KeysUnique (rows : List Row) : Prop := (rows.map (fun r => r.hash)).Nodup

/-- Index and blob directory agree: every row has its canonical blob file and
every file of the directory is the blob of some row. -/
def Consistent (s : Store) : Prop :=
  (∀ r ∈ s.rows, r.blob_path = pathJoin s.blobDir r.hash ∧ (fsRead s.files r.blob_path).isSome) ∧
  (∀ f ∈ s.files, ∃ r ∈ s.rows, r.blob_path = f.1)

/-- State of the table and the blob directory when `Set` reaches
`evictIfNeeded`: the blob written, the row of the digest replaced. -/
def Store.committed (s : Store) (entry : Entry) (metadataJSON : String) : Store :=
  { s with
    files := fsWrite s.files (pathJoin s.blobDir entry.Hash) entry.Data,
    rows := s.rows.filter (fun x => x.hash != entry.Hash) ++
      [{ hash := entry.Hash, metadata := metadataJSON,
         created_at := goTimestampText entry.CreatedAt,
         accessed_at := goTimestampText entry.AccessedAt,
         expires_at := entry.ExpiresAt.map goTimestampText,
         size := entry.Size, blob_path := pathJoin s.blobDir entry.Hash }] }

/-- Digest under which a call writes to the store: the digest of the input of
a `SaveResult` whose hashing succeeds, nothing for any other call. -/
def Op.savedDigest (L : Lib) (e : Engine) : Op → Option String
  | .save _ _ _ i _ _ =>
    match e.HashData L i with
    | .ok h => some h
    | .error _ => none
  | _ => none

/-! ## Concrete inputs -/

/-- A store of capacity 10 bytes holding one entry of 8 bytes. -/
def smallStore : Store :=
  { rows := [{ hash := "a", metadata := "json", created_at := "1970-01-01 00:00:01+00:00",
               accessed_at := "1970-01-01 00:00:01+00:00", expires_at := none, size := 8,
               blob_path := "blobs/a" }],
    files := [("blobs/a", [1, 2, 3, 4, 5, 6, 7, 8])],
    blobDir := "blobs", cacheSize := 10 }

/-- A second entry of 8 bytes for `smallStore`. -/
def smallEntry : Entry :=
  { Hash := "b", Data := [8, 7, 6, 5, 4, 3, 2, 1], Metadata := [],
    CreatedAt := { unixNano := 2 * Second, offset := 0 },
    AccessedAt := { unixNano := 2 * Second, offset := 0 }, ExpiresAt := none, Size := 8 }

/-- Entry number `i` of the capacity scenario: 300,000 bytes, saved and last
accessed `i` seconds after the epoch. -/
def scenarioEntry (i : Nat) : Entry :=
  { Hash := "e" ++ toString i, Data := List.replicate 300000 0, Metadata := [],
    CreatedAt := { unixNano := i * Second, offset := 0 },
    AccessedAt := { unixNano := i * Second, offset := 0 }, ExpiresAt := none, Size := 300000 }

/-- Store of capacity 1,000,000 bytes after the first `n` saves of the
scenario, every library call succeeding. -/
def scenarioAfter : Nat → Store
  | 0 => { rows := [], files := [], blobDir := "blobs", cacheSize := 1000000 }
  | n + 1 => ((scenarioAfter n).Set toyLib noFaults (scenarioEntry (n + 1))).1

/-- A policy for task `flaky` with a TTL of one hour. -/
def flakyHour : EvictionPolicy :=
  { Name := "flaky", TTL := 3600 * Second, MaxSize := 0, Strategy := "lru" }

/-- An instant: 2023-11-14 22:13:20 UTC, in nanoseconds since the epoch. -/
def t2023 : Int := 1700000000 * Second

/-- A store whose only entry expired at the start of 2020 and has lost its
blob file. -/
def expiredNoBlob : Store :=
  { rows := [{ hash := "a", metadata := "json", created_at := "2019-12-31 23:00:00+00:00",
               accessed_at := "2019-12-31 23:00:00+00:00",
               expires_at := some "2020-01-01 00:00:00+00:00", size := 8,
               blob_path := "blobs/a" }],
    files := [], blobDir := "blobs", cacheSize := 10 }

/-- A store whose only entry never expires and has lost its blob file. -/
def liveNoBlob : Store :=
  { rows := [{ hash := "a", metadata := "json", created_at := "2019-12-31 23:00:00+00:00",
               accessed_at := "2019-12-31 23:00:00+00:00", expires_at := none, size := 8,
               blob_path := "blobs/a" }],
    files := [], blobDir := "blobs", cacheSize := 10 }

/-- Oracle under which `os.ReadFile` fails although the file exists (for
instance permission denied) and all else succeeds. -/
def readFails : Faults := { noFaults with readFile := true }

/-- Oracle under which the `INSERT OR REPLACE` fails and all else succeeds. -/
def insertFails : Faults := { noFaults with insertRow := true }

/-- A new version of the entry `a` of `smallStore`, with encodable metadata. -/
def overwriteEntry : Entry :=
  { Hash := "a", Data := [9, 9], Metadata := [],
    CreatedAt := { unixNano := 2 * Second, offset := 0 },
    AccessedAt := { unixNano := 2 * Second, offset := 0 }, ExpiresAt := none, Size := 2 }

/-- A new version of the entry `a` of `smallStore` whose metadata holds a
value `json.Marshal` rejects. -/
def unencodableEntry : Entry :=
  { Hash := "a", Data := [9, 9],
    Metadata := [("user_data", .user (some [("callback", .unencodable)]))],
    CreatedAt := { unixNano := 2 * Second, offset := 0 },
    AccessedAt := { unixNano := 2 * Second, offset := 0 }, ExpiresAt := none, Size := 2 }

/-- A manager that has cached the output `[5, 5]` for the input `[1]`. -/
def smallManager : Manager :=
  ((NewManager "cache" 1 "blake3").SaveResult toyLib noFaults 0 "build" [1] [5, 5] none).1

/-! ## Hash engine: both return values, files and directory trees -/

/-- Method `Engine.HashData` with Go's two return values kept apart: the
digest string and the error (`nil` is `none`). -/
def Engine.HashDataValues (L : Lib) (e : Engine) (data : Bytes) : String × Option String :=
  if e.algorithm = "blake3" then (L.blake3Sum256 data, none)
  else if e.algorithm = "sha256" then (L.sha256Sum256 data, none)
  else ("", some ("unsupported algorithm: " ++ e.algorithm))

/-- A file system object: a regular file with its content, or a directory
with its entries by name. -/
inductive Node where
  | file (content : Bytes)
  | dir (entries : List (String × Node))

/-- What the file system does during a hash of files: the order in which it
lists the names of a directory, and which calls fail (by full path). -/
structure WalkEnv where
  /-- Order in which `Readdirnames` returns the names of a directory. -/
  readdir : List String → List String
  /-- The walk hands the callback an error at this path (a failing `Lstat`
  or a failing read of the directory). -/
  walkErr : String → Bool
  /-- Failure of `os.Open` on this path. -/
  openFails : String → Bool
  /-- Failure of `io.Copy` from the file at this path. -/
  copyFails : String → Bool

/-- One call of the walk callback: the components of the path below the root,
whether it is a directory, and the content of a file. -/
structure Visit where
  rel : List String
  isDir : Bool
  content : Bytes
  deriving DecidableEq, Repr

/-- The sort of `filepath.Walk` on the names of a directory: ascending in
the lexical order of strings. -/
def sortNames (names : List String) : List String :=
  names.insertionSort (fun a b => a.data ≤ b.data)

/-- The visits of the entry called `name`, empty when there is none. -/
def lookupVisits (name : String) (subs : List (String × List Visit)) : List Visit :=
  match subs.find? (fun p => p.1 == name) with
  | some p => p.2
  | none => []

mutual
/-- The calls `filepath.Walk` makes on the tree below `rel`, in order: the
node itself, then, for a directory, its entries in sorted name order, each
followed by its own subtree. -/
def Node.visits (readdir : List String → List String) : Node → List String → List Visit
  | .file c, rel => [{ rel := rel, isDir := false, content := c }]
  | .dir es, rel =>
    { rel := rel, isDir := true, content := [] } ::
      (sortNames (readdir (es.map Prod.fst))).flatMap
        (fun n => lookupVisits n (entriesVisits readdir es rel))
/-- The visits of every entry of a directory, by entry name. -/
def entriesVisits (readdir : List String → List String) :
    List (String × Node) → List String → List (String × List Visit)
  | [], _ => []
  | (n, c) :: rest, rel =>
    (n, c.visits readdir (rel ++ [n])) :: entriesVisits readdir rest rel
end

/-- UTF-8 bytes of a string. -/
def strBytes (s : String) : Bytes :=
  (s.data.flatMap String.utf8EncodeChar).map UInt8.toNat

/-- The result of `filepath.Rel(dirPath, path)`: a dot for the root, else the
components joined by the separator. -/
def relString (rel : List String) : String :=
  if rel = [] then "." else "/".intercalate rel

/-- The path handed to the callback: the root joined with the components. -/
def fullPath (dirPath : String) (rel : List String) : String :=
  rel.foldl pathJoin dirPath

/-- The callback of `HashDirectory` run over the visits in order, `acc` being
the bytes written to the hasher so far. The first error ends the walk. -/
def hashVisits (env : WalkEnv) (dirPath : String) : List Visit → Bytes → Except String Bytes
  | [], acc => .ok acc
  | v :: rest, acc =>
    if env.walkErr (fullPath dirPath v.rel) then
      .error ("walk error at " ++ fullPath dirPath v.rel)
    else if v.isDir then
      hashVisits env dirPath rest (acc ++ strBytes ("dir:" ++ relString v.rel ++ "\n"))
    else if env.openFails (fullPath dirPath v.rel) then
      .error ("cannot read file " ++ fullPath dirPath v.rel)
    else if env.copyFails (fullPath dirPath v.rel) then
      .error ("hash error for " ++ fullPath dirPath v.rel)
    else
      hashVisits env dirPath rest
        (acc ++ strBytes ("file:" ++ relString v.rel ++ ":" ++ toString v.content.length ++ "\n")
          ++ v.content)

/-- The bytes the callback of `HashDirectory` writes to the hasher for one
visit: the `dir:` line of a directory, or the `file:` line of a file followed
by its content. -/
def recordBytes (v : Visit) : Bytes :=
  if v.isDir then strBytes ("dir:" ++ relString v.rel ++ "\n")
  else strBytes ("file:" ++ relString v.rel ++ ":" ++ toString v.content.length ++ "\n")
    ++ v.content

/-- Method `Engine.HashDirectory` on the tree found at `dirPath`. The
streaming hasher is the library digest of all bytes written to it. -/
def Engine.HashDirectory (L : Lib) (env : WalkEnv) (e : Engine) (dirPath : String)
    (tree : Node) : Except String String :=
  match hashVisits env dirPath (tree.visits env.readdir []) [] with
  | .error msg => .error ("directory hash error: " ++ msg)
  | .ok written => .ok (L.blake3Sum256 written)

/-- Method `Engine.HashFile` on a file with the given content. -/
def Engine.HashFile (L : Lib) (env : WalkEnv) (e : Engine) (filePath : String)
    (content : Bytes) : Except String String :=
  if env.openFails filePath then .error ("cannot open file " ++ filePath)
  else if e.algorithm = "blake3" then
    if env.copyFails filePath then .error ("hash error for " ++ filePath)
    else .ok (L.blake3Sum256 content)
  else if e.algorithm = "sha256" then
    if env.copyFails filePath then .error ("hash error for " ++ filePath)
    else .ok (L.sha256Sum256 content)
  else .error ("unsupported algorithm: " ++ e.algorithm)

mutual
/-- No two entries of a directory share a name, at every level. -/
def namesUnique : Node → Bool
  | .file _ => true
  | .dir es => decide ((es.map Prod.fst).Nodup) && entriesUnique es
/-- The same for every entry of a list. -/
def entriesUnique : List (String × Node) → Bool
  | [] => true
  | (_, c) :: rest => namesUnique c && entriesUnique rest
end

/-- The lexical order of relative paths, component by component: a path comes
before its extensions, and paths that part ways are ordered by the first
component in which they differ. -/
def relLT (a b : List String) : Prop := a.map String.data < b.map String.data

/-- The file system that lists names as stored and never fails. -/
def plainEnv : WalkEnv :=
  { readdir := fun l => l, walkErr := fun _ => false, openFails := fun _ => false,
    copyFails := fun _ => false }

/-- The file system that lists names in reverse and never fails. -/
def reverseEnv : WalkEnv := { plainEnv with readdir := fun l => l.reverse }

/-- A small tree: directory `a` holding file `x`, next to the files `a-b`
and `b`. -/
def sampleTree : Node :=
  .dir [("b", .file [2]), ("a-b", .file [1, 1]), ("a", .dir [("x", .file [7])])]

/-- A manager over an empty store with a capacity of 10 bytes. -/
def tinyManager : Manager :=
  { store := { rows := [], files := [], blobDir := "blobs", cacheSize := 10 },
    hasher := NewEngine "blake3", policies := [], maxSizeGB := 0 }

/-- The state of `tinyManager` after a first save of 8 bytes, one second
after the epoch. -/
def tinyManagerOne : Manager :=
  (tinyManager.SaveResult toyLib noFaults (1 * Second) "build" [1] [8, 8, 8, 8, 8, 8, 8, 8] none).1


/-- A fresh one gigabyte cache with the one hour policy registered for task
`flaky`. -/
def hourManager : Manager := ((NewManager "cache" 1 "blake3").RegisterPolicy flakyHour).1

/-- The state after a save under task `flaky` at `t2023` by a process whose
local zone is five hours west of UTC. -/
def westSaved : Manager :=
  (hourManager.SaveResult westLib noFaults t2023 "flaky" [7] [8] none).1

/-- The state after the same save by a process whose local zone is UTC. -/
def utcSaved : Manager :=
  (hourManager.SaveResult toyLib noFaults t2023 "flaky" [7] [8] none).1

/-! ## Lemmas -/

theorem find_filter_ne {α : Type} (key : α → String) (l : List α) {p q : String} (h : p ≠ q) :
    (l.filter (fun f => key f != p)).find? (fun f => key f == q)
      = l.find? (fun f => key f == q) := by
  rw [List.find?_filter]
  congr 1
  funext a
  by_cases ha : key a = q
  · have hqp : ¬ q = p := fun e => h e.symm
    simp [ha, hqp]
  · simp [ha]

theorem find_filter_same {α : Type} (key : α → String) (l : List α) (p : String) :
    (l.filter (fun f => key f != p)).find? (fun f => key f == p) = none := by
  rw [List.find?_eq_none]
  intro x hx
  simp at hx
  simp [hx.2]

theorem fsRead_fsWrite_same (fs : List (String × Bytes)) (p : String) (d : Bytes) :
    fsRead (fsWrite fs p d) p = some d := by
  unfold fsRead fsWrite
  rw [List.find?_append, find_filter_same (fun f : String × Bytes => f.1)]
  simp

/-- With no row of the digest, the filter of `DELETE` changes nothing. -/
theorem filter_ne_of_find_none (rows : List Row) (h : String)
    (hnone : rows.find? (fun r => r.hash == h) = none) :
    rows.filter (fun x => x.hash != h) = rows := by
  rw [List.filter_eq_self]
  intro a ha
  have := List.find?_eq_none.mp hnone a ha
  simpa using this

/-- The four outcomes of `Delete`. -/
theorem Delete_cases (F : Faults) (s : Store) (h : String) :
    (F.selectBlobPath h = true ∧ s.Delete F h = (s, some .databaseError)) ∨
    (s.rows.find? (fun r => r.hash == h) = none ∧ s.Delete F h = (s, none)) ∨
    (F.deleteRow h = true ∧ s.Delete F h = (s, some .cannotDeleteEntry)) ∨
    (∃ r, s.rows.find? (fun r => r.hash == h) = some r ∧
      F.selectBlobPath h = false ∧ F.deleteRow h = false ∧
      s.Delete F h = ({ s with rows := s.rows.filter (fun x => x.hash != h),
                               files := osRemove F s.files r.blob_path }, none)) := by
  by_cases h1 : F.selectBlobPath h = true
  · left; simp [Store.Delete, h1]
  · cases hfind : s.rows.find? (fun r => r.hash == h) with
    | none => right; left; simp [Store.Delete, h1, hfind]
    | some r =>
      by_cases h2 : F.deleteRow h = true
      · right; right; left; simp [Store.Delete, h1, hfind, h2]
      · right; right; right
        exact ⟨r, rfl, by simpa using h1, by simpa using h2, by simp [Store.Delete, h1, hfind, h2]⟩

/-- A delete that reports no error leaves exactly the rows of other digests. -/
theorem Delete_ok_rows (F : Faults) (s : Store) (h : String)
    (hok : (s.Delete F h).2 = none) :
    (s.Delete F h).1.rows = s.rows.filter (fun x => x.hash != h) := by
  rcases Delete_cases F s h with ⟨_, he⟩ | ⟨hn, he⟩ | ⟨_, he⟩ | ⟨r, _, _, _, he⟩
  · rw [he] at hok; simp at hok
  · rw [he]; exact (filter_ne_of_find_none s.rows h hn).symm
  · rw [he] at hok; simp at hok
  · rw [he]

theorem Delete_rows_sublist (F : Faults) (s : Store) (h : String) :
    (s.Delete F h).1.rows.Sublist s.rows := by
  unfold Store.Delete
  split
  · exact List.Sublist.refl _
  · split
    · exact List.Sublist.refl _
    · split
      · exact List.Sublist.refl _
      · exact List.filter_sublist _

theorem find_unique (rows : List Row) (hk : KeysUnique rows) (r : Row) (hr : r ∈ rows) :
    rows.find? (fun x => x.hash == r.hash) = some r := by
  induction rows with
  | nil => cases hr
  | cons a l ih =>
    unfold KeysUnique at hk
    rw [List.map_cons, List.nodup_cons] at hk
    by_cases ha : a.hash = r.hash
    · have hra : r = a := by
        rcases List.mem_cons.mp hr with h | h
        · exact h
        · exact absurd (ha ▸ List.mem_map_of_mem (fun r => r.hash) h) hk.1
      simp [List.find?_cons, hra]
    · have hra : r ∈ l := by
        rcases List.mem_cons.mp hr with h | h
        · exact absurd (h ▸ rfl) ha
        · exact h
      simp [List.find?_cons, ha]
      exact ih hk.2 hra

theorem KeysUnique_eq (rows : List Row) (hk : KeysUnique rows) (a b : Row) (ha : a ∈ rows)
    (hb : b ∈ rows) (hab : a.hash = b.hash) : a = b := by
  have h1 := find_unique rows hk a ha
  have h2 := find_unique rows hk b hb
  rw [hab, h2] at h1
  exact (Option.some.inj h1).symm

/-- Under the primary key, deleting the digest of a row of the table removes
exactly one row. -/
theorem filter_length_of_mem (rows : List Row) (hk : KeysUnique rows) (r : Row)
    (hr : r ∈ rows) :
    (rows.filter (fun x => x.hash != r.hash)).length + 1 = rows.length := by
  induction rows with
  | nil => cases hr
  | cons a l ih =>
    have hk2 := hk
    unfold KeysUnique at hk2
    rw [List.map_cons, List.nodup_cons] at hk2
    by_cases ha : a.hash = r.hash
    · have hl : l.filter (fun x => x.hash != r.hash) = l := by
        rw [List.filter_eq_self]
        intro x hx
        have : x.hash ≠ r.hash := fun e =>
          hk2.1 (ha ▸ e ▸ List.mem_map_of_mem (fun r => r.hash) hx)
        simpa using this
      simp [List.filter_cons, ha, hl]
    · have hrl : r ∈ l := by
        rcases List.mem_cons.mp hr with h | h
        · exact absurd (h ▸ rfl) ha
        · exact h
      have := ih hk2.2 hrl
      simp [List.filter_cons, ha]
      omega

/-- While the cursor of the eviction pass is open a `Delete` changes nothing:
it fails, or there is no row of the digest. -/
theorem Delete_underOpenCursor (F : Faults) (s : Store) (h : String) :
    (s.Delete (underOpenCursor F) h).1 = s := by
  rcases Delete_cases (underOpenCursor F) s h with ⟨_, he⟩ | ⟨_, he⟩ | ⟨_, he⟩ | ⟨r, _, _, hd, _⟩
  · rw [he]
  · rw [he]
  · rw [he]
  · simp [underOpenCursor] at hd

/-- The loop of the eviction pass leaves the store as it found it. -/
theorem evictLoop_noop (F : Faults) (cur : List Row) :
    ∀ (s : Store) (total target : Int), evictLoop F cur s total target = s := by
  induction cur with
  | nil => intro s total target; rfl
  | cons r rest ih =>
    intro s total target
    unfold evictLoop
    split
    · rfl
    · split
      · split
        · exact ih s total target
        · split
          · exact ih s total target
          · rename_i s1 hdel
            have h1 : s1 = (s.Delete (underOpenCursor F) r.hash).1 := by rw [hdel]
            rw [ih s1 _ target, h1, Delete_underOpenCursor]
      · rfl

/-- The eviction pass leaves the store as it found it. -/
theorem evictIfNeeded_state (F : Faults) (t : Store) : (t.evictIfNeeded F).1 = t := by
  unfold Store.evictIfNeeded
  split
  · rfl
  · split
    · rfl
    · split
      · rfl
      · exact evictLoop_noop F _ t _ _

/-- A `Set` that reports no error wrote the blob, committed the row and ran
the eviction pass. -/
theorem Set_ok (L : Lib) (F : Faults) (s : Store) (e : Entry)
    (hok : (s.Set L F e).2 = none) :
    ∃ j, L.jsonMarshal e.Metadata = some j ∧ F.writeFile = false ∧ F.insertRow = false ∧
      s.Set L F e = (s.committed e j).evictIfNeeded F := by
  by_cases hw : F.writeFile = true
  · simp [Store.Set, hw] at hok
  · cases hm : L.jsonMarshal e.Metadata with
    | none => simp [Store.Set, hw, hm] at hok
    | some j =>
      by_cases hi : F.insertRow = true
      · simp [Store.Set, hw, hm, hi] at hok
      · exact ⟨j, rfl, by simpa using hw, by simpa using hi,
          by simp [Store.Set, Store.committed, hw, hm, hi]⟩

/-- What a `SaveResult` that returns a digest did: it hashed the input to that
digest and the store accepted the entry built for it. -/
theorem SaveResult_ok (L : Lib) (F : Faults) (now : Int) (m : Manager) (taskName : String)
    (inputData output : Bytes) (metadata : UserData) (h : String)
    (hsave : (m.SaveResult L F now taskName inputData output metadata).2 = .ok h) :
    m.hasher.HashData L inputData = .ok h ∧
    (m.store.Set L F (buildEntry L m now taskName h output metadata)).2 = none ∧
    (m.SaveResult L F now taskName inputData output metadata).1 =
      { m with store := (m.store.Set L F (buildEntry L m now taskName h output metadata)).1 } := by
  cases hh : m.hasher.HashData L inputData with
  | error msg => simp [Manager.SaveResult, hh] at hsave
  | ok h1 =>
    cases hset : m.store.Set L F (buildEntry L m now taskName h1 output metadata) with
    | mk st err =>
      cases err with
      | some e => simp [Manager.SaveResult, hh, hset] at hsave
      | none =>
        simp only [Manager.SaveResult, hh, hset] at hsave ⊢
        have hh1 : h1 = h := by simpa using hsave
        subst hh1
        simp [hset]

/-- Whatever `Set` does, every row it leaves was there before or carries the
digest of the entry. -/
theorem Set_rows_mem (L : Lib) (F : Faults) (s : Store) (e : Entry) :
    ∀ r ∈ (s.Set L F e).1.rows, r ∈ s.rows ∨ r.hash = e.Hash := by
  intro r hr
  by_cases hw : F.writeFile = true
  · simp [Store.Set, hw] at hr; exact Or.inl hr
  · cases hm : L.jsonMarshal e.Metadata with
    | none => simp [Store.Set, hw, hm] at hr; exact Or.inl hr
    | some j =>
      by_cases hi : F.insertRow = true
      · simp [Store.Set, hw, hm, hi] at hr; exact Or.inl hr
      · have hset : s.Set L F e = (s.committed e j).evictIfNeeded F := by
          simp [Store.Set, Store.committed, hw, hm, hi]
        rw [hset, evictIfNeeded_state] at hr
        have hmem := hr
        simp only [Store.committed, List.mem_append, List.mem_singleton] at hmem
        rcases hmem with h1 | h1
        · exact Or.inl (List.mem_of_mem_filter h1)
        · exact Or.inr (by rw [h1])

/-- Whatever `Get` does, every row it leaves has the digest of a row that was
there before. -/
theorem Get_rows_hash (L : Lib) (F : Faults) (now : Int) (s : Store) (h : String) :
    ∀ r ∈ (s.Get L F now h).1.rows, ∃ r0 ∈ s.rows, r0.hash = r.hash := by
  intro r hr
  unfold Store.Get at hr
  split at hr
  · exact ⟨r, hr, rfl⟩
  · split at hr
    · exact ⟨r, hr, rfl⟩
    · split at hr
      · exact ⟨r, (Delete_rows_sublist F s h).subset hr, rfl⟩
      · split at hr
        · exact ⟨r, hr, rfl⟩
        · simp only at hr
          split at hr
          · exact ⟨r, hr, rfl⟩
          · rw [List.mem_map] at hr
            obtain ⟨r0, hr0, heq⟩ := hr
            refine ⟨r0, hr0, ?_⟩
            split at heq
            · rw [← heq]
            · rw [heq]

/-- A lookup that does not fail, for a digest without a row, is a miss and
changes nothing. -/
theorem Get_absent (L : Lib) (G : Faults) (now : Int) (s : Store) (h : String)
    (hsel : G.selectEntry = false) (habs : ∀ r ∈ s.rows, r.hash ≠ h) :
    s.Get L G now h = (s, .ok none) := by
  have hfind : s.rows.find? (fun r => r.hash == h && r.live now) = none := by
    rw [List.find?_eq_none]
    intro r hr
    simp [habs r hr]
  simp [Store.Get, hsel, hfind]

/-- One call keeps the hasher, and adds rows only under the digest it saves. -/
theorem step_invariant (L : Lib) (e : Engine) (d : String) (m : Manager) (op : Op)
    (hh : m.hasher = e) (hrows : ∀ r ∈ m.store.rows, r.hash ≠ d)
    (hop : op.savedDigest L e ≠ some d) :
    (m.step L op).hasher = e ∧ ∀ r ∈ (m.step L op).store.rows, r.hash ≠ d := by
  cases op with
  | save now F t i o md =>
    simp only [Manager.step, Manager.SaveResult]
    cases hd : m.hasher.HashData L i with
    | error msg => exact ⟨hh, hrows⟩
    | ok h1 =>
      simp only []
      have hne : h1 ≠ d := by
        intro heq
        apply hop
        simp [Op.savedDigest, ← hh, hd, heq]
      cases hset : m.store.Set L F (buildEntry L m now t h1 o md) with
      | mk st err =>
        have hst : ∀ r ∈ st.rows, r.hash ≠ d := by
          intro r hr
          have := Set_rows_mem L F m.store (buildEntry L m now t h1 o md) r (by rw [hset]; exact hr)
          rcases this with h2 | h2
          · exact hrows r h2
          · rw [h2]; exact hne
        cases err with
        | none => exact ⟨hh, hst⟩
        | some x => exact ⟨hh, hst⟩
  | get now F t i =>
    simp only [Manager.step, Manager.GetResult]
    cases hd : m.hasher.HashData L i with
    | error msg => exact ⟨hh, hrows⟩
    | ok h1 =>
      simp only []
      cases hget : m.store.Get L F now h1 with
      | mk st res =>
        have hst : ∀ r ∈ st.rows, r.hash ≠ d := by
          intro r hr
          obtain ⟨r0, hr0, heq⟩ := Get_rows_hash L F now m.store h1 r (by rw [hget]; exact hr)
          rw [← heq]; exact hrows r0 hr0
        cases res with
        | error x => exact ⟨hh, hst⟩
        | ok v =>
          cases v with
          | none => exact ⟨hh, hst⟩
          | some en => exact ⟨hh, hst⟩
  | register p =>
    simp only [Manager.step, Manager.RegisterPolicy]
    split
    · exact ⟨hh, hrows⟩
    · exact ⟨hh, hrows⟩

theorem run_invariant (L : Lib) (e : Engine) (d : String) (ops : List Op) :
    ∀ (m : Manager), m.hasher = e → (∀ r ∈ m.store.rows, r.hash ≠ d) →
      (∀ op ∈ ops, op.savedDigest L e ≠ some d) →
      (m.run L ops).hasher = e ∧ ∀ r ∈ (m.run L ops).store.rows, r.hash ≠ d := by
  induction ops with
  | nil => intro m hh hr _; exact ⟨hh, hr⟩
  | cons op rest ih =>
    intro m hh hr hops
    have h1 := step_invariant L e d m op hh hr (hops op (List.mem_cons_self _ _))
    exact ih (m.step L op) h1.1 h1.2 (fun o ho => hops o (List.mem_cons_of_mem _ ho))

/-- A `Set` that reports no error leaves the committed state: the blob
written and the row of the digest replaced, nothing removed. -/
theorem Set_state (L : Lib) (F : Faults) (s : Store) (e : Entry)
    (hok : (s.Set L F e).2 = none) :
    ∃ j, L.jsonMarshal e.Metadata = some j ∧ (s.Set L F e).1 = s.committed e j := by
  obtain ⟨j, hj, _, _, hset⟩ := Set_ok L F s e hok
  exact ⟨j, hj, by rw [hset, evictIfNeeded_state]⟩

/-- The row `Set` commits is the last row of the committed state. -/
theorem committed_row_mem (s : Store) (e : Entry) (j : String) :
    ({ hash := e.Hash, metadata := j, created_at := goTimestampText e.CreatedAt,
       accessed_at := goTimestampText e.AccessedAt,
       expires_at := e.ExpiresAt.map goTimestampText, size := e.Size,
       blob_path := pathJoin s.blobDir e.Hash } : Row) ∈ (s.committed e j).rows := by
  simp [Store.committed]

/-- The blob of the committed state holds the data of the entry. -/
theorem committed_blob (s : Store) (e : Entry) (j : String) :
    fsRead (s.committed e j).files (pathJoin s.blobDir e.Hash) = some e.Data := by
  simp only [Store.committed]
  exact fsRead_fsWrite_same _ _ _

/-- A row the filter of the `SELECT` rejects: the read is a miss and changes
nothing. -/
theorem Get_filtered (L : Lib) (G : Faults) (now : Int) (u : Store) (h : String)
    (hsel : G.selectEntry = false)
    (hfind : u.rows.find? (fun x => x.hash == h && x.live now) = none) :
    u.Get L G now h = (u, .ok none) := by
  simp [Store.Get, hsel, hfind]

/-- Without faults the callback of `HashDirectory` writes the records of the
visits, one after the other. -/
theorem hashVisits_records (env : WalkEnv) (dirPath : String)
    (hw : ∀ p, env.walkErr p = false) (ho : ∀ p, env.openFails p = false)
    (hc : ∀ p, env.copyFails p = false) :
    ∀ (vs : List Visit) (acc : Bytes),
      hashVisits env dirPath vs acc = .ok (acc ++ vs.flatMap recordBytes) := by
  intro vs
  induction vs with
  | nil => intro acc; simp [hashVisits]
  | cons v rest ih =>
    intro acc
    by_cases hd : v.isDir = true
    · simp [hashVisits, hw, hd, ih, recordBytes, List.flatMap_cons]
    · simp [hashVisits, hw, ho, hc, hd, ih, recordBytes, List.flatMap_cons]

theorem sortNames_sorted (l : List String) :
    List.Sorted (fun a b : String => a.data ≤ b.data) (sortNames l) := by
  haveI : IsTotal String (fun a b => a.data ≤ b.data) := ⟨fun a b => le_total a.data b.data⟩
  haveI : IsTrans String (fun a b => a.data ≤ b.data) :=
    ⟨fun a b c hab hbc => le_trans hab hbc⟩
  exact List.sorted_insertionSort _ _

theorem sortNames_perm (l : List String) : (sortNames l).Perm l :=
  List.perm_insertionSort _ _

/-- Two listings of the same names are sorted to the same list. -/
theorem sortNames_eq_of_perm {l1 l2 : List String} (h : l1.Perm l2) :
    sortNames l1 = sortNames l2 := by
  haveI : IsAntisymm String (fun a b => a.data ≤ b.data) :=
    ⟨fun a b hab hba => String.ext (le_antisymm hab hba)⟩
  exact List.eq_of_perm_of_sorted
    ((sortNames_perm l1).trans (h.trans (sortNames_perm l2).symm))
    (sortNames_sorted l1) (sortNames_sorted l2)

mutual
theorem visits_listing (r1 r2 : List String → List String)
    (h1 : ∀ l, (r1 l).Perm l) (h2 : ∀ l, (r2 l).Perm l) :
    ∀ (t : Node) (rel : List String), t.visits r1 rel = t.visits r2 rel
  | .file c, rel => by simp [Node.visits]
  | .dir es, rel => by
    simp only [Node.visits]
    rw [entries_listing r1 r2 h1 h2 es rel,
      sortNames_eq_of_perm ((h1 (es.map Prod.fst)).trans (h2 (es.map Prod.fst)).symm)]
theorem entries_listing (r1 r2 : List String → List String)
    (h1 : ∀ l, (r1 l).Perm l) (h2 : ∀ l, (r2 l).Perm l) :
    ∀ (es : List (String × Node)) (rel : List String),
      entriesVisits r1 es rel = entriesVisits r2 es rel
  | [], rel => by simp [entriesVisits]
  | (n, c) :: rest, rel => by
    simp only [entriesVisits]
    rw [visits_listing r1 r2 h1 h2 c (rel ++ [n]), entries_listing r1 r2 h1 h2 rest rel]
end


theorem lookupVisits_cases (n : String) (subs : List (String × List Visit)) :
    lookupVisits n subs = [] ∨ ∃ p ∈ subs, p.1 = n ∧ lookupVisits n subs = p.2 := by
  unfold lookupVisits
  cases hf : subs.find? (fun p => p.1 == n) with
  | none => exact Or.inl rfl
  | some p =>
    refine Or.inr ⟨p, List.mem_of_find?_eq_some hf, ?_, rfl⟩
    simpa using List.find?_some hf

theorem relLT_extend (rel : List String) (n : String) (s : List String) :
    relLT rel (rel ++ n :: s) := by
  unfold relLT
  have hnil : List.Lex (fun a b : List Char => a < b) [] (n.data :: s.map String.data) :=
    List.Lex.nil
  have := List.Lex.append_left (fun a b : List Char => a < b) hnil (rel.map String.data)
  simpa using this

theorem relLT_branch (rel : List String) {n1 n2 : String} (h : n1.data < n2.data)
    (s1 s2 : List String) : relLT (rel ++ n1 :: s1) (rel ++ n2 :: s2) := by
  unfold relLT
  have hrel : List.Lex (fun a b : List Char => a < b) (n1.data :: s1.map String.data)
      (n2.data :: s2.map String.data) := List.Lex.rel h
  have := List.Lex.append_left (fun a b : List Char => a < b) hrel (rel.map String.data)
  simpa using this

/-- Sorted names without repetition are strictly ascending. -/
theorem sortNames_strict (l : List String) (hnd : l.Nodup) :
    List.Pairwise (fun a b : String => a.data < b.data) (sortNames l) := by
  have hs : List.Pairwise (fun a b : String => a.data ≤ b.data) (sortNames l) :=
    sortNames_sorted l
  have hn : List.Pairwise (fun a b : String => a ≠ b) (sortNames l) :=
    ((sortNames_perm l).nodup_iff).mpr hnd
  exact (hs.and hn).imp (fun h => lt_of_le_of_ne h.1 (fun e => h.2 (String.ext e)))

mutual
theorem visits_sorted (r : List String → List String) (hr : ∀ l, (r l).Perm l) :
    ∀ (t : Node) (rel : List String), namesUnique t = true →
      List.Pairwise (fun a b : Visit => relLT a.rel b.rel) (t.visits r rel) ∧
      ∀ v ∈ t.visits r rel, ∃ s, v.rel = rel ++ s
  | .file c, rel, _ => by
    simp only [Node.visits]
    exact ⟨List.pairwise_singleton _ _, fun v hv => ⟨[], by simp at hv; simp [hv]⟩⟩
  | .dir es, rel, hu => by
    simp only [namesUnique, Bool.and_eq_true, decide_eq_true_eq] at hu
    have hsub := entries_sorted r hr es rel hu.2
    have hmem : ∀ n, ∀ v ∈ lookupVisits n (entriesVisits r es rel),
        ∃ s, v.rel = rel ++ n :: s := by
      intro n v hv
      rcases lookupVisits_cases n (entriesVisits r es rel) with h0 | ⟨p, hp, hpn, hlk⟩
      · rw [h0] at hv; cases hv
      · rw [hlk] at hv
        obtain ⟨s, hs⟩ := (hsub p hp).2 v hv
        exact ⟨s, by rw [hs, hpn]⟩
    simp only [Node.visits]
    refine ⟨List.pairwise_cons.mpr ⟨?_, ?_⟩, ?_⟩
    · intro v hv
      obtain ⟨n, _, hvn⟩ := List.mem_flatMap.mp hv
      obtain ⟨s, hs⟩ := hmem n v hvn
      rw [hs]
      exact relLT_extend rel n s
    · rw [List.pairwise_flatMap]
      constructor
      · intro n _
        rcases lookupVisits_cases n (entriesVisits r es rel) with h0 | ⟨p, hp, _, hlk⟩
        · rw [h0]; exact List.Pairwise.nil
        · rw [hlk]; exact (hsub p hp).1
      · have hnd : (r (es.map Prod.fst)).Nodup := ((hr _).nodup_iff).mpr hu.1
        refine (sortNames_strict _ hnd).imp ?_
        intro n1 n2 hlt x hx y hy
        obtain ⟨s1, hs1⟩ := hmem n1 x hx
        obtain ⟨s2, hs2⟩ := hmem n2 y hy
        rw [hs1, hs2]
        exact relLT_branch rel hlt s1 s2
    · intro v hv
      rcases List.mem_cons.mp hv with h0 | h1
      · exact ⟨[], by simp [h0]⟩
      · obtain ⟨n, _, hvn⟩ := List.mem_flatMap.mp h1
        obtain ⟨s, hs⟩ := hmem n v hvn
        exact ⟨n :: s, hs⟩
theorem entries_sorted (r : List String → List String) (hr : ∀ l, (r l).Perm l) :
    ∀ (es : List (String × Node)) (rel : List String), entriesUnique es = true →
      ∀ p ∈ entriesVisits r es rel,
        List.Pairwise (fun a b : Visit => relLT a.rel b.rel) p.2 ∧
        ∀ v ∈ p.2, ∃ s, v.rel = rel ++ p.1 :: s
  | [], rel, _ => by simp [entriesVisits]
  | (n, c) :: rest, rel, hu => by
    simp only [entriesUnique, Bool.and_eq_true] at hu
    intro p hp
    simp only [entriesVisits, List.mem_cons] at hp
    rcases hp with h0 | h1
    · have := visits_sorted r hr c (rel ++ [n]) hu.1
      rw [h0]
      refine ⟨this.1, fun v hv => ?_⟩
      obtain ⟨s, hs⟩ := this.2 v hv
      exact ⟨s, by rw [hs]; simp⟩
    · exact entries_sorted r hr rest rel hu.2 p h1
end


/-- The callback consults the file system only for failures, not for the
listing order. -/
theorem hashVisits_congr (env1 env2 : WalkEnv) (dirPath : String)
    (hw : env1.walkErr = env2.walkErr) (ho : env1.openFails = env2.openFails)
    (hc : env1.copyFails = env2.copyFails) :
    ∀ (vs : List Visit) (acc : Bytes),
      hashVisits env1 dirPath vs acc = hashVisits env2 dirPath vs acc := by
  intro vs
  induction vs with
  | nil => intro acc; rfl
  | cons v rest ih =>
    intro acc
    simp only [hashVisits, hw, ho, hc, ih]

/-- No manager call replaces the hash engine. -/
theorem run_hasher (L : Lib) (ops : List Op) :
    ∀ (m : Manager), (m.run L ops).hasher = m.hasher := by
  induction ops with
  | nil => intro m; rfl
  | cons op rest ih =>
    intro m
    have hstep : (m.step L op).hasher = m.hasher := by
      cases op with
      | save now F t i o md =>
        simp only [Manager.step, Manager.SaveResult]
        cases m.hasher.HashData L i with
        | error msg => rfl
        | ok h1 =>
          simp only []
          cases hset : m.store.Set L F (buildEntry L m now t h1 o md) with
          | mk st err => cases err <;> rfl
      | get now F t i =>
        simp only [Manager.step, Manager.GetResult]
        cases m.hasher.HashData L i with
        | error msg => rfl
        | ok h1 =>
          simp only []
          cases hget : m.store.Get L F now h1 with
          | mk st res =>
            cases res with
            | error x => rfl
            | ok v => cases v <;> rfl
      | register p =>
        simp only [Manager.step, Manager.RegisterPolicy]
        split <;> rfl
    exact (ih (m.step L op)).trans hstep

/-- The two renderings of the result of `HashData` agree. -/
theorem HashData_eq_values (L : Lib) (e : Engine) (data : Bytes) :
    e.HashData L data =
      match (e.HashDataValues L data).2 with
      | none => .ok (e.HashDataValues L data).1
      | some msg => .error msg := by
  unfold Engine.HashData Engine.HashDataValues
  split
  · rfl
  · split <;> rfl


/-! ## The claims -/

/-- C1, the code at the failing input: a process whose local zone is five
hours west of UTC registers a policy with a TTL of one hour for task `flaky`
and saves the output `[8]` for the input `[7]` at 2023-11-14 22:13:20 UTC.
`SaveResult` returns the digest without error; the row and the blob are
there. The row holds the expiry as local text, `2023-11-14 18:13:20-05:00`,
and the read compares it as text with `2023-11-14 22:13:20`, the UTC text of
the same instant: the `GetResult` that follows immediately is a miss, 59
minutes and 59 seconds later it still is, and the same two calls made by a
process in UTC are a hit. -/
theorem C1_round_trip_lost_west_of_utc :
    (hourManager.SaveResult westLib noFaults t2023 "flaky" [7] [8] none).2 = .ok "b3-7" ∧
    westSaved.store.rows.map (fun r => (r.hash, r.expires_at, r.blob_path))
      = [("b3-7", some "2023-11-14 18:13:20-05:00", "cache/blobs/b3-7")] ∧
    fsRead westSaved.store.files "cache/blobs/b3-7" = some [8] ∧
    sqliteDatetime t2023 = "2023-11-14 22:13:20" ∧
    (westSaved.GetResult westLib noFaults t2023 "flaky" [7]).2 = .ok none ∧
    (westSaved.GetResult westLib noFaults (t2023 + 3599 * Second) "flaky" [7]).2 = .ok none ∧
    (hourManager.SaveResult toyLib noFaults t2023 "flaky" [7] [8] none).2 = .ok "b3-7" ∧
    (utcSaved.GetResult toyLib noFaults t2023 "flaky" [7]).2 = .ok (some ([8], [])) := by
  refine ⟨by rfl, by decide, by decide, by decide, by rfl, by rfl, by rfl, by rfl⟩

/-- C2 (amended). Miss on unseen input: start from a fresh manager and run any
sequence of calls (saves under any task, reads, policy registrations, with any
faults). If no `SaveResult` of the sequence, under any task, was made for an
input whose digest is the digest `d` of `input`, then `GetResult(t, input)`,
its index lookup not failing, returns `(nil, nil, false)` with no error. -/
theorem C2_miss_on_unseen_input (L : Lib) (cacheDir : String) (maxSizeGB : Int)
    (hashAlgo : String) (ops : List Op) (G : Faults) (now : Int) (taskName : String)
    (input : Bytes) (d : String)
    (hd : (NewEngine hashAlgo).HashData L input = .ok d)
    (hnever : ∀ op ∈ ops, op.savedDigest L (NewEngine hashAlgo) ≠ some d)
    (hsel : G.selectEntry = false) :
    (((NewManager cacheDir maxSizeGB hashAlgo).run L ops).GetResult L G now taskName input).2
      = .ok none := by
  obtain ⟨hh, hrows⟩ := run_invariant L (NewEngine hashAlgo) d ops
    (NewManager cacheDir maxSizeGB hashAlgo) rfl
    (by intro r hr; simp [NewManager, NewStore] at hr) hnever
  simp only [Manager.GetResult, hh, hd]
  rw [Get_absent L G now _ d hsel hrows]

/-- C2 (as stated) fails: after task `other` saved a result for some input
bytes, `GetResult` under task `build`, for which nothing was ever saved, is a
hit on the same bytes and returns the output of `other`. -/
theorem C2_counterexample :
    (((NewManager "cache" 1 "blake3").run toyLib
        [Op.save 0 noFaults "other" [1, 2, 3] [9, 9] none]).GetResult
      toyLib noFaults 1 "build" [1, 2, 3]).2 = .ok (some ([9, 9], [])) := by
  rfl

/-- C2 at a concrete input: task `other` saved a different input. -/
theorem C2_miss_on_unseen_input_witness :
    (((NewManager "cache" 1 "blake3").run toyLib
        [Op.save 0 noFaults "other" [4, 5, 6] [9, 9] none]).GetResult
      toyLib noFaults 1 "build" [1, 2, 3]).2 = .ok none :=
  C2_miss_on_unseen_input toyLib "cache" 1 "blake3"
    [Op.save 0 noFaults "other" [4, 5, 6] [9, 9] none] noFaults 1 "build" [1, 2, 3]
    "b3-1-2-3" (by rfl) (by decide) rfl

/-- C3, the code at the failing input: the eviction pass never changes the
store, whatever the faults, because each `DELETE` it issues fails under its
own open cursor and is skipped. In a store of capacity 10 holding 8 bytes, a
`Set` of another 8 bytes with no fault injected returns without error and
leaves both rows, 16 bytes, in the index. -/
theorem C3_capacity_exceeded_without_fault :
    (∀ (F : Faults) (t : Store), (t.evictIfNeeded F).1 = t) ∧
    smallStore.cacheSize = 10 ∧
    0 ≤ smallEntry.Size ∧
    (smallStore.Set toyLib noFaults smallEntry).2 = none ∧
    (smallStore.Set toyLib noFaults smallEntry).1.rows.map (fun r => (r.hash, r.size))
      = [("a", 8), ("b", 8)] ∧
    totalSize (smallStore.Set toyLib noFaults smallEntry).1.rows = 16 ∧
    ¬ totalSize (smallStore.Set toyLib noFaults smallEntry).1.rows ≤ smallStore.cacheSize := by
  refine ⟨evictIfNeeded_state, by decide, by decide, by decide, by decide, by decide, by decide⟩

/-- C4, the code at the failing input, the scenario of the claim: capacity
1,000,000 and five saves of 300,000 bytes, no fault injected. The fourth save
leaves 1,200,000 bytes, above the capacity, and removes nothing; the fifth
returns without error and leaves all five entries, rows and blobs, and
1,500,000 bytes. The two least recently accessed entries are still there. In
general the loop of the eviction pass returns the store it was given, for
every cursor, running total and target. -/
theorem C4_nothing_evicted :
    (∀ (F : Faults) (cur : List Row) (s : Store) (total target : Int),
      evictLoop F cur s total target = s) ∧
    (scenarioAfter 4).rows.map (fun r => (r.hash, r.accessed_at))
      = [("e1", "1970-01-01 00:00:01+00:00"), ("e2", "1970-01-01 00:00:02+00:00"),
         ("e3", "1970-01-01 00:00:03+00:00"), ("e4", "1970-01-01 00:00:04+00:00")] ∧
    totalSize (scenarioAfter 4).rows = 1200000 ∧
    ((scenarioAfter 4).Set toyLib noFaults (scenarioEntry 5)).2 = none ∧
    (scenarioAfter 5).rows.map (fun r => r.hash) = ["e1", "e2", "e3", "e4", "e5"] ∧
    (scenarioAfter 5).files.map (fun f => f.1)
      = ["blobs/e1", "blobs/e2", "blobs/e3", "blobs/e4", "blobs/e5"] ∧
    totalSize (scenarioAfter 5).rows = 1500000 ∧
    ¬ totalSize (scenarioAfter 5).rows ≤ (scenarioAfter 5).cacheSize := by
  refine ⟨evictLoop_noop, by decide, by decide, by decide, by decide, by decide, by decide,
    by decide⟩

/-- C6 (amended). Self-healing on corruption: take an entry whose index row is
present (the index respecting its primary key) and whose blob file has been
removed, and a `Store.Get` for its digest whose lookup and internal delete do
not fail. The read is a miss with no error. If the expiry filter of the read
selects the row (it has no `expires_at`, or its `expires_at` passes the
comparison with `datetime('now')`), then afterwards the index has no row for
that digest and the entry count reported by `Stats` is one lower. If the
filter rejects the row, the store is left as it was: the row stays and the
count is the same. `Manager.GetResult` for an input of that digest returns the
same miss and leaves the store in the same state. -/
theorem C6_self_healing (L : Lib) (G : Faults) (now : Int) (s : Store) (h : String) (r : Row)
    (hkeys : KeysUnique s.rows) (hr : r ∈ s.rows) (hrh : r.hash = h)
    (hblob : fsRead s.files r.blob_path = none)
    (hsel : G.selectEntry = false) (hdsel : G.selectBlobPath h = false)
    (hdel : G.deleteRow h = false) :
    (s.Get L G now h).2 = .ok none ∧
    (∀ (m : Manager) (taskName : String) (inputData : Bytes),
      m.store = s → m.hasher.HashData L inputData = .ok h →
        (m.GetResult L G now taskName inputData).2 = .ok none ∧
        (m.GetResult L G now taskName inputData).1.store = (s.Get L G now h).1) ∧
    (r.live now = true →
      (∀ x ∈ (s.Get L G now h).1.rows, x.hash ≠ h) ∧
      (∀ x ∈ s.rows, x.hash ≠ h → x ∈ (s.Get L G now h).1.rows) ∧
      (∀ S : Faults, S.statsQuery = false →
        ∃ a b, s.Stats S = .ok a ∧ (s.Get L G now h).1.Stats S = .ok b ∧
          b.entries = a.entries - 1)) ∧
    (r.live now = false →
      (s.Get L G now h).1 = s ∧
      r ∈ (s.Get L G now h).1.rows ∧
      (∀ S : Faults, (s.Get L G now h).1.Stats S = s.Stats S)) := by
  have hmgr : ∀ (u : Store), s.Get L G now h = (u, .ok none) →
      ∀ (m : Manager) (taskName : String) (inputData : Bytes),
        m.store = s → m.hasher.HashData L inputData = .ok h →
          (m.GetResult L G now taskName inputData).2 = .ok none ∧
          (m.GetResult L G now taskName inputData).1.store = (s.Get L G now h).1 := by
    intro u hget m taskName inputData hm hh
    subst hm
    simp [Manager.GetResult, hh, hget]
  by_cases hlive : r.live now = true
  · have hfind : s.rows.find? (fun x => x.hash == h && x.live now) = some r := by
      cases hf : s.rows.find? (fun x => x.hash == h && x.live now) with
      | none =>
        have := List.find?_eq_none.mp hf r hr
        simp [hrh, hlive] at this
      | some r2 =>
        have hp2 := List.find?_some hf
        simp only [Bool.and_eq_true, beq_iff_eq] at hp2
        rw [KeysUnique_eq s.rows hkeys r2 r (List.mem_of_find?_eq_some hf) hr
          (hp2.1.trans hrh.symm)]
    have hfind2 : s.rows.find? (fun x => x.hash == h) = some r := by
      rw [← hrh]; exact find_unique s.rows hkeys r hr
    have hdelete : s.Delete G h =
        ({ s with rows := s.rows.filter (fun x => x.hash != h),
                  files := osRemove G s.files r.blob_path }, none) := by
      simp [Store.Delete, hdsel, hfind2, hdel]
    have hget : s.Get L G now h =
        ({ s with rows := s.rows.filter (fun x => x.hash != h),
                  files := osRemove G s.files r.blob_path }, .ok none) := by
      by_cases hrf : G.readFile = true
      · simp [Store.Get, hsel, hfind, hrf, hdelete]
      · simp [Store.Get, hsel, hfind, hrf, hblob, hdelete]
    refine ⟨by rw [hget], hmgr _ hget, fun _ => ⟨?_, ?_, ?_⟩,
      fun hdead => absurd hlive (by rw [hdead]; simp)⟩
    · intro x hx
      rw [hget] at hx
      simp only [List.mem_filter] at hx
      simpa using hx.2
    · intro x hx hne
      rw [hget]
      simp only [List.mem_filter]
      exact ⟨hx, by simpa using hne⟩
    · intro S hS
      have hstats : ∀ u : Store, u.Stats S = .ok
          { entries := (u.rows.length : Int), total_size := totalSize u.rows,
            cache_limit := u.cacheSize, oldest_access := minAccessed u.rows } := by
        intro u
        simp [Store.Stats, hS]
      refine ⟨_, _, hstats s, hstats _, ?_⟩
      rw [hget]
      have := filter_length_of_mem s.rows hkeys r hr
      rw [hrh] at this
      simp only
      omega
  · have hdead : r.live now = false := by simpa using hlive
    have hfind : s.rows.find? (fun x => x.hash == h && x.live now) = none := by
      rw [List.find?_eq_none]
      intro x hx hp
      simp only [Bool.and_eq_true, beq_iff_eq] at hp
      have hxr := KeysUnique_eq s.rows hkeys x r hx hr (hp.1.trans hrh.symm)
      rw [hxr, hdead] at hp
      exact Bool.false_ne_true hp.2
    have hget := Get_filtered L G now s h hsel hfind
    refine ⟨by rw [hget], hmgr _ hget, fun hl => absurd hl hlive, fun _ => ⟨?_, ?_, ?_⟩⟩
    · rw [hget]
    · rw [hget]; exact hr
    · intro S; rw [hget]

/-- C6 (as stated) fails: an entry that expired at the start of 2020 and whose
blob file was removed is looked up on 2023-11-14; the read is a miss with no
error, but the row is still in the index and `Stats` still counts one
entry. -/
theorem C6_counterexample :
    expiredNoBlob.rows.map (fun r => (r.hash, r.expires_at))
      = [("a", some "2020-01-01 00:00:00+00:00")] ∧
    sqliteDatetime t2023 = "2023-11-14 22:13:20" ∧
    fsRead expiredNoBlob.files "blobs/a" = none ∧
    (expiredNoBlob.Get toyLib noFaults t2023 "a").2 = .ok none ∧
    (expiredNoBlob.Get toyLib noFaults t2023 "a").1.rows.map (fun r => r.hash) = ["a"] ∧
    (expiredNoBlob.Stats noFaults).map (fun st => st.entries) = .ok 1 ∧
    ((expiredNoBlob.Get toyLib noFaults t2023 "a").1.Stats noFaults).map (fun st => st.entries)
      = .ok 1 := by
  refine ⟨by decide, by decide, by decide, by rfl, by decide, by rfl, by rfl⟩

/-- C6 at concrete inputs: an entry without an expiry that lost its blob is a
miss and the index is empty afterwards; the entry that expired in 2020 is a
miss and the store is untouched. -/
theorem C6_self_healing_witness :
    ((liveNoBlob.Get toyLib noFaults t2023 "a").2 = .ok none ∧
      (∀ x ∈ (liveNoBlob.Get toyLib noFaults t2023 "a").1.rows, x.hash ≠ "a")) ∧
    ((expiredNoBlob.Get toyLib noFaults t2023 "a").2 = .ok none ∧
      (expiredNoBlob.Get toyLib noFaults t2023 "a").1 = expiredNoBlob) :=
  have key1 := C6_self_healing toyLib noFaults t2023 liveNoBlob "a"
    { hash := "a", metadata := "json", created_at := "2019-12-31 23:00:00+00:00",
      accessed_at := "2019-12-31 23:00:00+00:00", expires_at := none, size := 8,
      blob_path := "blobs/a" }
    (by unfold KeysUnique; decide) (by decide) rfl (by decide) rfl rfl rfl
  have key2 := C6_self_healing toyLib noFaults t2023 expiredNoBlob "a"
    { hash := "a", metadata := "json", created_at := "2019-12-31 23:00:00+00:00",
      accessed_at := "2019-12-31 23:00:00+00:00",
      expires_at := some "2020-01-01 00:00:00+00:00", size := 8, blob_path := "blobs/a" }
    (by unfold KeysUnique; decide) (by decide) rfl (by decide) rfl rfl rfl
  ⟨⟨key1.1, (key1.2.2.1 (by decide)).1⟩, ⟨key2.1, (key2.2.2.2 (by decide)).1⟩⟩

/-- C7, the code at the failing input: the entry `a` of `smallStore` has its
row, is not expired and its blob file exists with its 8 bytes, but reading the
file fails. `Store.Get` reports a miss with no error, not an error, and has
deleted the row and the blob. Likewise `Manager.GetResult`, for an input whose
output is cached and whose blob cannot be read, returns a miss with no error
and the entry is gone. -/
theorem C7_unreadable_blob_reported_as_miss :
    (smallStore.rows.map (fun r => (r.hash, r.expires_at))) = [("a", none)] ∧
    fsRead smallStore.files "blobs/a" = some [1, 2, 3, 4, 5, 6, 7, 8] ∧
    (smallStore.Get toyLib readFails 3 "a").2 = .ok none ∧
    (smallStore.Get toyLib readFails 3 "a").1.rows = [] ∧
    (smallStore.Get toyLib readFails 3 "a").1.files = [] ∧
    (smallManager.GetResult toyLib noFaults 3 "build" [1]).2 = .ok (some ([5, 5], [])) ∧
    (smallManager.GetResult toyLib readFails 3 "build" [1]).2 = .ok none ∧
    (smallManager.GetResult toyLib readFails 3 "build" [1]).1.store.rows = [] ∧
    (smallManager.GetResult toyLib readFails 3 "build" [1]).1.store.files = [] := by
  refine ⟨by decide, by decide, by rfl, by decide, by decide, by rfl, by rfl, by decide,
    by decide⟩

/-- C8, the code at the failing input: `smallStore` is consistent (one row
`a`, one blob `blobs/a`). A `Set` for the same digest whose blob write
succeeds and whose metadata encoding fails, or whose index commit fails,
returns the error, removes the blob file and leaves the old row: an index row
without its blob. -/
theorem C8_failed_overwrite_leaves_dangling_row :
    Consistent smallStore ∧
    (smallStore.Set toyLib noFaults unencodableEntry).2 = some .cannotMarshalMetadata ∧
    (smallStore.Set toyLib noFaults unencodableEntry).1.rows = smallStore.rows ∧
    (smallStore.Set toyLib noFaults unencodableEntry).1.files = [] ∧
    ¬ Consistent (smallStore.Set toyLib noFaults unencodableEntry).1 ∧
    (smallStore.Set toyLib insertFails overwriteEntry).2 = some .cannotInsertEntry ∧
    (smallStore.Set toyLib insertFails overwriteEntry).1.rows = smallStore.rows ∧
    (smallStore.Set toyLib insertFails overwriteEntry).1.files = [] ∧
    ¬ Consistent (smallStore.Set toyLib insertFails overwriteEntry).1 := by
  unfold Consistent
  refine ⟨by decide, by decide, by decide, by decide, by decide, by decide, by decide,
    by decide, by decide⟩

/-- C9. Idempotent delete: a `Delete` whose index lookup does not fail, for a
digest without an index row, returns no error and leaves the index and the
blob directory unchanged; hence after a first `Delete` of a digest that
returned no error, a second `Delete` of the same digest returns no error and
leaves the state the first call produced. -/
theorem C9_idempotent_delete (F : Faults) (s : Store) (h : String)
    (hsel : F.selectBlobPath h = false) :
    ((∀ r ∈ s.rows, r.hash ≠ h) → s.Delete F h = (s, none)) ∧
    (∀ F1 : Faults, (s.Delete F1 h).2 = none →
      (s.Delete F1 h).1.Delete F h = ((s.Delete F1 h).1, none)) := by
  have habsent : ∀ u : Store, (∀ r ∈ u.rows, r.hash ≠ h) → u.Delete F h = (u, none) := by
    intro u hu
    have hfind : u.rows.find? (fun r => r.hash == h) = none := by
      rw [List.find?_eq_none]
      intro r hr
      simpa using hu r hr
    simp [Store.Delete, hsel, hfind]
  refine ⟨habsent s, ?_⟩
  intro F1 hok
  apply habsent
  intro r hr
  rw [Delete_ok_rows F1 s h hok, List.mem_filter] at hr
  simpa using hr.2

/-- C9 at a concrete input: deleting the entry `a` of `smallStore` twice. -/
theorem C9_idempotent_delete_witness :
    smallStore.Delete noFaults "zz" = (smallStore, none) ∧
    (smallStore.Delete noFaults "a").1.Delete noFaults "a"
      = ((smallStore.Delete noFaults "a").1, none) :=
  have key := C9_idempotent_delete noFaults smallStore
  ⟨(key "zz" rfl).1 (by decide), (key "a" rfl).2 noFaults (by decide)⟩

/-- C10. RegisterPolicy returns an error exactly when the policy name is
empty, and then changes nothing. Otherwise the policy map afterwards holds the
given policy under its name and no other entry of that name, the policies of
all other names are as before, and the store (every stored entry with its
`expires_at`), the hasher and the size setting are unchanged. -/
theorem C10_register_policy (m : Manager) (policy : EvictionPolicy) :
    ((m.RegisterPolicy policy).2 ≠ none ↔ policy.Name = "") ∧
    (policy.Name = "" → (m.RegisterPolicy policy).1 = m) ∧
    (policy.Name ≠ "" →
      (m.RegisterPolicy policy).2 = none ∧
      mapGet (m.RegisterPolicy policy).1.policies policy.Name = some policy ∧
      (m.RegisterPolicy policy).1.policies.filter (fun kv => kv.1 == policy.Name)
        = [(policy.Name, policy)] ∧
      (∀ k, k ≠ policy.Name →
        mapGet (m.RegisterPolicy policy).1.policies k = mapGet m.policies k) ∧
      (m.RegisterPolicy policy).1.store = m.store ∧
      (m.RegisterPolicy policy).1.hasher = m.hasher ∧
      (m.RegisterPolicy policy).1.maxSizeGB = m.maxSizeGB) := by
  by_cases hn : policy.Name = ""
  · refine ⟨by simp [Manager.RegisterPolicy, hn], by intro _; simp [Manager.RegisterPolicy, hn],
      fun h => absurd hn h⟩
  · refine ⟨by simp [Manager.RegisterPolicy, hn], fun h => absurd h hn, fun _ => ?_⟩
    have hreg : m.RegisterPolicy policy =
        ({ m with policies := mapPut m.policies policy.Name policy }, none) := by
      simp [Manager.RegisterPolicy, hn]
    rw [hreg]
    refine ⟨rfl, by simp [mapGet, mapPut], ?_, ?_, rfl, rfl, rfl⟩
    · show List.filter (fun kv => kv.1 == policy.Name) (mapPut m.policies policy.Name policy)
        = [(policy.Name, policy)]
      simp only [mapPut, List.filter_cons, beq_self_eq_true, if_true, List.filter_filter]
      congr 1
      rw [List.filter_eq_nil_iff]
      intro a _
      by_cases ha : a.1 = policy.Name <;> simp [ha]
    · intro k hk
      have hk2 : policy.Name ≠ k := fun e => hk e.symm
      show mapGet (mapPut m.policies policy.Name policy) k = mapGet m.policies k
      simp only [mapGet, mapPut, List.find?_cons]
      have hb : (policy.Name == k) = false := by simpa using hk2
      rw [hb, find_filter_ne (fun kv : String × EvictionPolicy => kv.1) m.policies hk2]

/-- C11. Unsupported algorithm: `NewEngine(a).HashData(b)` returns an error
exactly when `a` is none of the empty name, `blake3` and `sha256` (the empty
name selecting blake3); the digest returned with the error is the empty
string and the message is `unsupported algorithm: ` followed by `a`, so it
contains `a`. -/
theorem C11_unsupported_algorithm (L : Lib) (a : String) (b : Bytes) :
    (((NewEngine a).HashDataValues L b).2 ≠ none ↔
      (a ≠ "" ∧ a ≠ "blake3" ∧ a ≠ "sha256")) ∧
    ((∃ msg, (NewEngine a).HashData L b = .error msg) ↔
      (a ≠ "" ∧ a ≠ "blake3" ∧ a ≠ "sha256")) ∧
    (a ≠ "" ∧ a ≠ "blake3" ∧ a ≠ "sha256" →
      (NewEngine a).HashDataValues L b = ("", some ("unsupported algorithm: " ++ a)) ∧
      (NewEngine a).HashData L b = .error ("unsupported algorithm: " ++ a) ∧
      a.data.IsInfix ("unsupported algorithm: " ++ a).data) ∧
    (NewEngine "").HashDataValues L b = (NewEngine "blake3").HashDataValues L b := by
  have hbad : a ≠ "" ∧ a ≠ "blake3" ∧ a ≠ "sha256" →
      (NewEngine a).HashDataValues L b = ("", some ("unsupported algorithm: " ++ a)) ∧
      (NewEngine a).HashData L b = .error ("unsupported algorithm: " ++ a) := by
    intro ⟨h0, h1, h2⟩
    simp [NewEngine, Engine.HashDataValues, Engine.HashData, h0, h1, h2]
  have hgood : ¬ (a ≠ "" ∧ a ≠ "blake3" ∧ a ≠ "sha256") →
      ((NewEngine a).HashDataValues L b).2 = none ∧
      ∃ d, (NewEngine a).HashData L b = .ok d := by
    intro hn
    by_cases h0 : a = ""
    · subst h0
      exact ⟨by simp [NewEngine, Engine.HashDataValues], L.blake3Sum256 b,
        by simp [NewEngine, Engine.HashData]⟩
    · by_cases h1 : a = "blake3"
      · subst h1
        exact ⟨by simp [NewEngine, Engine.HashDataValues], L.blake3Sum256 b,
          by simp [NewEngine, Engine.HashData]⟩
      · by_cases h2 : a = "sha256"
        · subst h2
          exact ⟨by simp [NewEngine, Engine.HashDataValues], L.sha256Sum256 b,
            by simp [NewEngine, Engine.HashData]⟩
        · exact absurd ⟨h0, h1, h2⟩ hn
  refine ⟨⟨?_, ?_⟩, ⟨?_, ?_⟩, ?_, ?_⟩
  · intro herr
    by_contra hn
    exact herr (hgood hn).1
  · intro h
    rw [(hbad h).1]
    simp
  · intro ⟨msg, hmsg⟩
    by_contra hn
    obtain ⟨d, hd⟩ := (hgood hn).2
    rw [hd] at hmsg
    cases hmsg
  · intro h
    exact ⟨_, (hbad h).2⟩
  · intro h
    refine ⟨(hbad h).1, (hbad h).2, ?_⟩
    exact ⟨"unsupported algorithm: ".data, [], by simp [String.data_append]⟩
  · simp [NewEngine]

/-- C12. Determinism: `HashData` depends on the bytes and the algorithm only.
Two engines with the same algorithm name return the same digest and the same
error for every buffer, and an engine held by a manager still returns that
result after any sequence of manager calls. -/
theorem C12_hash_determinism (L : Lib) (e1 e2 : Engine) (b : Bytes)
    (h : e1.algorithm = e2.algorithm) :
    e1.HashDataValues L b = e2.HashDataValues L b ∧
    e1.HashData L b = e2.HashData L b ∧
    (∀ (m : Manager) (ops : List Op), m.hasher = e1 →
      (m.run L ops).hasher.HashDataValues L b = e2.HashDataValues L b) := by
  have hv : e1.HashDataValues L b = e2.HashDataValues L b := by
    simp only [Engine.HashDataValues, h]
  refine ⟨hv, by simp only [Engine.HashData, h], ?_⟩
  intro m ops hm
  rw [run_hasher L ops m, hm, hv]

/-- C12 at a concrete input: an engine built with the empty name and one
built with `blake3` hash the same buffer to the same digest. -/
theorem C12_hash_determinism_witness :
    (NewEngine "").HashDataValues toyLib [1, 2] = (NewEngine "blake3").HashDataValues toyLib [1, 2] ∧
    (NewEngine "").HashDataValues toyLib [1, 2] = ("b3-1-2", none) :=
  ⟨(C12_hash_determinism toyLib (NewEngine "") (NewEngine "blake3") [1, 2] (by decide)).1,
    by decide⟩

/-- C13. Canonical directory order: for a tree whose directories have no
repeated names, `HashDirectory` visits the entries in ascending order of their
relative paths (compared component by component, a directory before its
contents) and folds them into the digest in that order: when no call fails,
the result is the blake3 digest of the records of the visits, concatenated in
the order of the visits. Two file systems that list the entries of the
directories in different orders, and fail at the same paths, give the same
sequence of visits and the same result. -/
theorem C13_canonical_directory_order (L : Lib) (e : Engine) (dirPath : String) (tree : Node)
    (env1 env2 : WalkEnv) (hu : namesUnique tree = true)
    (h1 : ∀ l, (env1.readdir l).Perm l) (h2 : ∀ l, (env2.readdir l).Perm l)
    (hw : env1.walkErr = env2.walkErr) (ho : env1.openFails = env2.openFails)
    (hc : env1.copyFails = env2.copyFails) :
    List.Pairwise (fun a b : Visit => relLT a.rel b.rel) (tree.visits env1.readdir []) ∧
    tree.visits env1.readdir [] = tree.visits env2.readdir [] ∧
    e.HashDirectory L env1 dirPath tree = e.HashDirectory L env2 dirPath tree ∧
    ((∀ p, env1.walkErr p = false) → (∀ p, env1.openFails p = false) →
      (∀ p, env1.copyFails p = false) →
        e.HashDirectory L env1 dirPath tree
          = .ok (L.blake3Sum256 ((tree.visits env1.readdir []).flatMap recordBytes)) ∧
        e.HashDirectory L env2 dirPath tree
          = .ok (L.blake3Sum256 ((tree.visits env1.readdir []).flatMap recordBytes))) := by
  have hv := visits_listing env1.readdir env2.readdir h1 h2 tree []
  have heq : e.HashDirectory L env1 dirPath tree = e.HashDirectory L env2 dirPath tree := by
    simp only [Engine.HashDirectory, hv, hashVisits_congr env1 env2 dirPath hw ho hc]
  refine ⟨(visits_sorted env1.readdir h1 tree [] hu).1, hv, heq, ?_⟩
  intro hw1 ho1 hc1
  have hdigest : e.HashDirectory L env1 dirPath tree
      = .ok (L.blake3Sum256 ((tree.visits env1.readdir []).flatMap recordBytes)) := by
    simp only [Engine.HashDirectory, hashVisits_records env1 dirPath hw1 ho1 hc1,
      List.nil_append]
  exact ⟨hdigest, heq ▸ hdigest⟩

/-- C13 at a concrete input: the sample tree hashed under a file system that
lists names as stored and under one that lists them in reverse. Both visit
`.`, `a`, `a/x`, `a-b`, `b` and return the digest of the five records in that
order. -/
theorem C13_canonical_directory_order_witness :
    (sampleTree.visits plainEnv.readdir []).map (fun v => relString v.rel)
      = [".", "a", "a/x", "a-b", "b"] ∧
    (NewEngine "blake3").HashDirectory toyLib plainEnv "d" sampleTree
      = .ok (toyLib.blake3Sum256 (strBytes "dir:.\n" ++ strBytes "dir:a\n" ++
          strBytes "file:a/x:1\n" ++ [7] ++ strBytes "file:a-b:2\n" ++ [1, 1] ++
          strBytes "file:b:1\n" ++ [2])) ∧
    (NewEngine "blake3").HashDirectory toyLib reverseEnv "d" sampleTree
      = .ok (toyLib.blake3Sum256 (strBytes "dir:.\n" ++ strBytes "dir:a\n" ++
          strBytes "file:a/x:1\n" ++ [7] ++ strBytes "file:a-b:2\n" ++ [1, 1] ++
          strBytes "file:b:1\n" ++ [2])) :=
  have key := C13_canonical_directory_order toyLib (NewEngine "blake3") "d" sampleTree plainEnv
    reverseEnv (by decide) (fun l => List.Perm.refl l) (fun l => List.reverse_perm l)
    rfl rfl rfl
  have hrec : (sampleTree.visits plainEnv.readdir []).flatMap recordBytes
      = strBytes "dir:.\n" ++ strBytes "dir:a\n" ++ strBytes "file:a/x:1\n" ++ [7] ++
          strBytes "file:a-b:2\n" ++ [1, 1] ++ strBytes "file:b:1\n" ++ [2] := by decide
  ⟨by decide,
    hrec ▸ (key.2.2.2 (fun _ => rfl) (fun _ => rfl) (fun _ => rfl)).1,
    hrec ▸ (key.2.2.2 (fun _ => rfl) (fun _ => rfl) (fun _ => rfl)).2⟩

/-- C14, the code at the failing input: `HashDirectory` never consults the
engine's algorithm, so every engine returns what a blake3 engine returns. An
engine built with `sha256` hashes the bytes `[7]` and a file holding them with
sha256, but hashes a directory with blake3; an engine built with an
unsupported name fails on data and files and still returns a blake3 digest
for a directory. -/
theorem C14_directory_digest_ignores_algorithm :
    (∀ (L : Lib) (env : WalkEnv) (e : Engine) (dirPath : String) (tree : Node),
      e.HashDirectory L env dirPath tree
        = (NewEngine "blake3").HashDirectory L env dirPath tree) ∧
    (NewEngine "sha256").HashData toyLib [7] = .ok "s2-7" ∧
    (NewEngine "sha256").HashFile toyLib plainEnv "d/x" [7] = .ok "s2-7" ∧
    (NewEngine "sha256").HashDirectory toyLib plainEnv "d" (.dir [("x", .file [7])])
      = .ok (toyLib.blake3Sum256
          (strBytes "dir:.\n" ++ strBytes "file:x:1\n" ++ [7])) ∧
    toyLib.blake3Sum256 (strBytes "dir:.\n" ++ strBytes "file:x:1\n" ++ [7])
      ≠ toyLib.sha256Sum256 (strBytes "dir:.\n" ++ strBytes "file:x:1\n" ++ [7]) ∧
    (NewEngine "md5").HashData toyLib [7] = .error "unsupported algorithm: md5" ∧
    (NewEngine "md5").HashDirectory toyLib plainEnv "d" (.dir [("x", .file [7])])
      = .ok (toyLib.blake3Sum256
          (strBytes "dir:.\n" ++ strBytes "file:x:1\n" ++ [7])) := by
  refine ⟨fun L env e dirPath tree => rfl, by rfl, by rfl, by rfl, by decide, by rfl, by rfl⟩

/-- C16. A save does not evict its own entry: after a `SaveResult` that
returns digest `h` without error, whatever the capacity, the state before,
the size of the output and the faults its eviction pass met, the index holds
a row for `h` with the size of the output and the access time of the save,
pointing at the blob file of `h`, and that file holds the output. In
particular this holds when all existing entries were accessed earlier and the
output is at most half the capacity. -/
theorem C16_small_save_keeps_own_entry (L : Lib) (F : Faults) (now : Int) (m : Manager)
    (taskName : String) (inputData output : Bytes) (metadata : UserData) (h : String)
    (hsave : (m.SaveResult L F now taskName inputData output metadata).2 = .ok h) :
    ∃ r ∈ (m.SaveResult L F now taskName inputData output metadata).1.store.rows,
      r.hash = h ∧ r.size = (output.length : Int) ∧
      r.accessed_at = goTimestampText (timeNow L now) ∧
      r.blob_path = pathJoin m.store.blobDir h ∧
      fsRead (m.SaveResult L F now taskName inputData output metadata).1.store.files
        r.blob_path = some output := by
  obtain ⟨_, hok, hst⟩ := SaveResult_ok L F now m taskName inputData output metadata h hsave
  obtain ⟨j, _, hset⟩ := Set_state L F m.store _ hok
  rw [hst, hset]
  exact ⟨_, committed_row_mem m.store _ j, rfl, rfl, rfl, rfl, committed_blob m.store _ j⟩

/-- C16 at a concrete input: the store of capacity 10 holds one entry of 8
bytes accessed one second after the epoch. A save of 5 bytes (at most
`10 / 2`) a second later pushes the total to 13, above the capacity, so the
eviction pass runs; the new entry has its row and its blob afterwards. -/
theorem C16_small_save_keeps_own_entry_witness :
    tinyManagerOne.store.rows.map (fun r => (r.hash, r.size, r.accessed_at))
      = [("b3-1", 8, "1970-01-01 00:00:01+00:00")] ∧
    (([5, 5, 5, 5, 5] : Bytes).length : Int) ≤ Int.tdiv tinyManagerOne.store.cacheSize 2 ∧
    totalSize (tinyManagerOne.SaveResult toyLib noFaults (2 * Second) "build" [2]
      [5, 5, 5, 5, 5] none).1.store.rows = 13 ∧
    (∃ r ∈ (tinyManagerOne.SaveResult toyLib noFaults (2 * Second) "build" [2]
        [5, 5, 5, 5, 5] none).1.store.rows,
      r.hash = "b3-2" ∧ r.size = 5 ∧ r.accessed_at = "1970-01-01 00:00:02+00:00" ∧
      r.blob_path = "blobs/b3-2" ∧
      fsRead (tinyManagerOne.SaveResult toyLib noFaults (2 * Second) "build" [2]
        [5, 5, 5, 5, 5] none).1.store.files r.blob_path = some [5, 5, 5, 5, 5]) :=
  ⟨by decide, by decide, by decide,
    C16_small_save_keeps_own_entry toyLib noFaults (2 * Second) tinyManagerOne "build" [2]
      [5, 5, 5, 5, 5] none "b3-2" (by rfl)⟩

end TaskVault
